import Mathlib

/-!
# Verification of the V2RaySub subscription transcoding core

Shallow embedding of `app/Server.py`: the vless link codec
(`parse_vless_url`, `json_to_vless_url`), the inline profile classifier,
the SNI fan-out generator (`generate_multi_configs`), and the
subscription envelope handling of `get_base_configs` /
`multi_subscription`, together with the parts of the Python standard
library the module relies on (`urllib.parse.quote_plus`, `unquote`,
`parse_qs`, `urlencode`, `base64.b64encode`/`b64decode`, the UTF-8
codecs, `str.strip`, `str.split`, `json.loads` on flat objects).

Python strings are modelled as Lean `String` / `List Char`; byte strings
as `List Nat` with every element < 256. The parsed config dict is a
structure with one `Option String` per key the module ever reads
(`none` = key absent), so `dict.get` with its per-site defaults is
translated exactly.
-/

namespace V2RaySub

/-! ## Python `str` primitives -/

/-- Characters removed by Python `str.strip()`: exactly the code points
whose `str.isspace()` is true (tab through carriage return, the
information separators U+001C-U+001F, space, NEL, NBSP, the Ogham space
mark, the U+2000-U+200A spaces, the line and paragraph separators,
narrow no-break space, medium mathematical space, ideographic space). -/
def pyWs (c : Char) : Bool :=
  (decide (9 ≤ c.toNat) && decide (c.toNat ≤ 13))
    || (decide (28 ≤ c.toNat) && decide (c.toNat ≤ 32))
    || c.toNat == 0x85 || c.toNat == 0xA0 || c.toNat == 0x1680
    || (decide (0x2000 ≤ c.toNat) && decide (c.toNat ≤ 0x200A))
    || c.toNat == 0x2028 || c.toNat == 0x2029 || c.toNat == 0x202F
    || c.toNat == 0x205F || c.toNat == 0x3000

/-- Python `s.strip()`. -/
def pyStripL (l : List Char) : List Char :=
  ((l.dropWhile pyWs).reverse.dropWhile pyWs).reverse

/-- Python `s.strip()` on `String`. -/
def pyStrip (s : String) : String := String.mk (pyStripL s.data)

/-- Python `s.split(sep, 1)` when `sep in s`: the parts before and after
the first occurrence of `sep`; `none` when `sep` is absent. -/
def splitFirstChar (sep : Char) : List Char → Option (List Char × List Char)
  | [] => none
  | c :: rest =>
    if c = sep then some ([], rest)
    else (splitFirstChar sep rest).map (fun p => (c :: p.1, p.2))

/-- Python `s.rsplit(sep, 1)` when `sep in s`: split at the last
occurrence of `sep`. -/
def rsplitLastChar (sep : Char) (l : List Char) : Option (List Char × List Char) :=
  (splitFirstChar sep l.reverse).map (fun p => (p.2.reverse, p.1.reverse))

/-- Prepend a character to the first piece of a split result. -/
def consHead (c : Char) : List (List Char) → List (List Char)
  | [] => [[c]]
  | h :: t => (c :: h) :: t

/-- Python `s.split(sep)` without limit (never returns an empty list). -/
def splitAllChar (sep : Char) : List Char → List (List Char)
  | [] => [[]]
  | c :: rest =>
    if c = sep then [] :: splitAllChar sep rest else consHead c (splitAllChar sep rest)

/-- Python `s.startswith(p)` (first argument is the prefix). -/
def hasPrefixL : List Char → List Char → Bool
  | [], _ => true
  | _ :: _, [] => false
  | p :: ps, c :: cs => p = c && hasPrefixL ps cs

/-! ## UTF-8 codec (`str.encode('utf-8')` / `bytes.decode('utf-8')`) -/

/-- UTF-8 encoding of one Unicode scalar value. -/
def utf8EncodeCp (n : Nat) : List Nat :=
  if n < 0x80 then [n]
  else if n < 0x800 then [0xC0 + n / 64, 0x80 + n % 64]
  else if n < 0x10000 then [0xE0 + n / 4096, 0x80 + n / 64 % 64, 0x80 + n % 64]
  else [0xF0 + n / 262144, 0x80 + n / 4096 % 64, 0x80 + n / 64 % 64, 0x80 + n % 64]

/-- Classification of a byte in lead position: an ASCII byte, an
invalid lead (stray continuation, the overlong leads `C0`/`C1`, or
`F5`-`FF`), or the lead of a multi-byte sequence carrying (number of
continuation bytes minus one, initial accumulator, minimal code point
for the overlong check). -/
inductive Utf8LeadKind where
  | ascii (b : Nat)
  | bad
  | multi (k acc minv : Nat)

/-- Dispatch on a lead byte. -/
def utf8Lead (b : Nat) : Utf8LeadKind :=
  if b < 0x80 then .ascii b
  else if b < 0xC2 then .bad
  else if b < 0xE0 then .multi 0 (b - 0xC0) 0x80
  else if b < 0xF0 then .multi 1 (b - 0xE0) 0x800
  else if b < 0xF5 then .multi 2 (b - 0xF0) 0x10000
  else .bad

/-- Strict UTF-8 decoding, one byte at a time; the state is `none` in
lead position and `some (k, acc, minv)` inside a multi-byte sequence
with `k + 1` continuation bytes still expected. The overlong, surrogate
and range checks happen when the sequence completes, which yields the
same `Option` result as CPython's (eager) strict codec. -/
def utf8DecodeLoop : List Nat → Option (Nat × Nat × Nat) → Option (List Nat)
  | [], none => some []
  | [], some _ => none
  | b :: rest, none =>
    match utf8Lead b with
    | .ascii a => (utf8DecodeLoop rest none).map (fun l => a :: l)
    | .bad => none
    | .multi k acc minv => utf8DecodeLoop rest (some (k, acc, minv))
  | b :: rest, some (need, acc, minv) =>
    if 0x80 ≤ b ∧ b < 0xC0 then
      (if need = 0 then
        (let cp := acc * 64 + (b - 0x80)
         if cp < minv ∨ (0xD800 ≤ cp ∧ cp < 0xE000) ∨ 0x110000 ≤ cp then none
         else (utf8DecodeLoop rest none).map (fun l => cp :: l))
      else utf8DecodeLoop rest (some (need - 1, acc * 64 + (b - 0x80), minv)))
    else none

/-- Strict UTF-8 decoding to code points (`bytes.decode('utf-8')`):
rejects stray continuation bytes, truncation, overlong forms,
surrogates and values above 0x10FFFF. -/
def utf8DecodeCps (bs : List Nat) : Option (List Nat) := utf8DecodeLoop bs none

/-- UTF-8 decoding with `errors='replace'` as used by
`urllib.parse.unquote`, one byte at a time (state as in
`utf8DecodeLoop`): an invalid or truncated sequence yields one U+FFFD
and scanning resumes at the offending byte (a close model of CPython's
replacement policy; the exact number of U+FFFD per invalid run can
differ in corner cases). -/
def utf8ReplaceLoop : List Nat → Option (Nat × Nat × Nat) → List Char
  | [], none => []
  | [], some _ => ['�']
  | b :: rest, none =>
    match utf8Lead b with
    | .ascii a => Char.ofNat a :: utf8ReplaceLoop rest none
    | .bad => '�' :: utf8ReplaceLoop rest none
    | .multi k acc minv => utf8ReplaceLoop rest (some (k, acc, minv))
  | b :: rest, some (need, acc, minv) =>
    if 0x80 ≤ b ∧ b < 0xC0 then
      (if need = 0 then
        (let cp := acc * 64 + (b - 0x80)
         if cp < minv ∨ (0xD800 ≤ cp ∧ cp < 0xE000) ∨ 0x110000 ≤ cp then
           '�' :: utf8ReplaceLoop rest none
         else Char.ofNat cp :: utf8ReplaceLoop rest none)
      else utf8ReplaceLoop rest (some (need - 1, acc * 64 + (b - 0x80), minv)))
    else
      '�' :: (match utf8Lead b with
        | .ascii a => Char.ofNat a :: utf8ReplaceLoop rest none
        | .bad => '�' :: utf8ReplaceLoop rest none
        | .multi k acc2 minv2 => utf8ReplaceLoop rest (some (k, acc2, minv2)))

/-- `errors='replace'` decoding of a byte run. -/
def utf8DecodeReplace (bs : List Nat) : List Char := utf8ReplaceLoop bs none

/-- `str.encode('utf-8')` on the modelled strings (Lean `Char` excludes
surrogates, exactly the values Python can encode). -/
def utf8Encode (s : String) : List Nat :=
  s.data.flatMap (fun c => utf8EncodeCp c.toNat)

/-- `bytes.decode('utf-8')` (strict). -/
def utf8Decode (bs : List Nat) : Option String :=
  (utf8DecodeCps bs).map (fun cps => String.mk (cps.map Char.ofNat))

/-! ## Percent encoding (`urllib.parse.quote_plus` / `unquote`) -/

/-- Value of a hex digit, upper or lower case, as accepted by
`urllib.parse.unquote`. -/
def hexVal (c : Char) : Option Nat :=
  if c ≤ '9' ∧ '0' ≤ c then some (c.toNat - 48)
  else if c ≤ 'F' ∧ 'A' ≤ c then some (c.toNat - 55)
  else if c ≤ 'f' ∧ 'a' ≤ c then some (c.toNat - 87)
  else none

/-- Upper-case hex digit (`urllib.parse.quote` emits upper case). -/
def hexDigitU (n : Nat) : Char :=
  if n < 10 then Char.ofNat ('0'.toNat + n) else Char.ofNat ('A'.toNat + n - 10)

/-- `urllib.parse`'s always-safe characters (letters, digits, `_.-~`). -/
def pySafe (c : Char) : Bool :=
  c.isAlpha || c.isDigit || c = '_' || c = '.' || c = '-' || c = '~'

/-- One byte as `%XX`. -/
def pctByte (b : Nat) : List Char := ['%', hexDigitU (b / 16), hexDigitU (b % 16)]

/-- `urllib.parse.quote_plus(·, safe='')` on one character: safe
characters pass through, space becomes `+`, anything else is
percent-encoded bytewise in UTF-8. -/
def quotePlusChar (c : Char) : List Char :=
  if pySafe c then [c]
  else if c = ' ' then ['+']
  else (utf8EncodeCp c.toNat).flatMap pctByte

/-- `urllib.parse.quote_plus(·, safe='')`. -/
def quotePlusL (l : List Char) : List Char := l.flatMap quotePlusChar

/-- Core scanner of `urllib.parse.unquote` (errors='replace'): maximal
runs of valid `%XX` escapes are decoded together as one UTF-8 byte
string; invalid escapes stay literal. `acc` is the pending byte run. -/
def unquoteAux : List Char → List Nat → List Char
  | [], acc => utf8DecodeReplace acc
  | '%' :: a :: b :: rest, acc =>
    match hexVal a, hexVal b with
    | some x, some y => unquoteAux rest (acc ++ [16 * x + y])
    | _, _ => utf8DecodeReplace acc ++ '%' :: unquoteAux (a :: b :: rest) []
  | '%' :: rest, acc => utf8DecodeReplace acc ++ '%' :: unquoteAux rest []
  | c :: rest, acc => utf8DecodeReplace acc ++ c :: unquoteAux rest []

/-- `urllib.parse.unquote`. -/
def pyUnquote (s : String) : String := String.mk (unquoteAux s.data [])

/-- `urllib.parse.unquote_plus`: `+` to space, then `unquote`. -/
def unquotePlus (s : String) : String :=
  String.mk (unquoteAux (s.data.map (fun c => if c = '+' then ' ' else c)) [])

/-! ## Query strings (`urllib.parse.parse_qs` / `urlencode`) -/

/-- One `name=value` field of `urllib.parse.parse_qsl` under the default
options (`keep_blank_values=False`, `strict_parsing=False`, separator
`&`): empty fields, fields without `=` and fields with an empty value
are dropped; names and values go through `unquote_plus`. -/
def parseQsField (field : List Char) : List (String × String) :=
  if field = [] then []
  else
    match splitFirstChar '=' field with
    | none => []
    | some (n, v) =>
      if v = [] then []
      else [(unquotePlus (String.mk n), unquotePlus (String.mk v))]

/-- `urllib.parse.parse_qs` as the ordered list of `(name, value)`
pairs; `params.get(k, [d])[0]` is first-occurrence lookup over it. -/
def parseQs (qs : List Char) : List (String × String) :=
  (splitAllChar '&' qs).flatMap parseQsField

/-- First value bound to `k` (`params[k][0]` when `k` is present). -/
def findVal (l : List (String × String)) (k : String) : Option String :=
  (l.find? (fun p => p.1 == k)).map (fun p => p.2)

/-- `params.get(k, [d])[0]`. -/
def getFirst (l : List (String × String)) (k d : String) : String :=
  (findVal l k).getD d

/-- `urllib.parse.urlencode(params, doseq=True)` on string-valued
params: `quote_plus(k)=quote_plus(v)` pairs joined with `&` in dict
insertion order. -/
def urlencodeQS : List (String × String) → List Char
  | [] => []
  | [p] => quotePlusL p.1.data ++ '=' :: quotePlusL p.2.data
  | p :: rest => quotePlusL p.1.data ++ '=' :: quotePlusL p.2.data ++ '&' :: urlencodeQS rest

/-! ## The config record -/

/-- The parsed config dict of `Server.py`: one `Option String` per key
the module ever reads, `none` meaning the key is absent. The
`_config_type` key is the field `configType`. `parse_vless_url` always
produces every key except the conditional `flow` / `encryption` /
`allowInsecure`; a JSON-form line produces exactly the keys present in
the JSON object. -/
structure Config where
  v : Option String
  ps : Option String
  add : Option String
  port : Option String
  id : Option String
  aid : Option String
  scy : Option String
  net : Option String
  type : Option String
  host : Option String
  path : Option String
  tls : Option String
  sni : Option String
  alpn : Option String
  fp : Option String
  pbk : Option String
  sid : Option String
  spx : Option String
  flow : Option String
  encryption : Option String
  allowInsecure : Option String
  configType : Option String
  deriving Repr, DecidableEq

/-- The inline profile classification of `parse_vless_url` (lines
176-186): WebSocket first, then Reality (`security == 'reality'` and
truthy `pbk`), otherwise `other`. -/
def classifyConfig (net tls pbk : String) : String :=
  if net = "ws" then "websocket"
  else if tls = "reality" ∧ pbk ≠ "" then "reality"
  else "other"

/-- `parse_vless_url` (Server.py lines 118-199); `none` models the
`except` branch returning `None` (reached by the two `raise
ValueError`s). -/
def parse_vless_url (vless_url : String) : Option Config :=
  let cs := vless_url.data
  let url_content := if hasPrefixL "vless://".data cs then cs.drop 8 else cs
  match splitFirstChar '@' url_content with
  | none => none
  | some (uuid_part, server_part) =>
    let pc : List Char × String :=
      match splitFirstChar '#' server_part with
      | some (params_part, comment) => (params_part, pyUnquote (String.mk comment))
      | none => (server_part, "")
    let sq : List Char × List Char :=
      match splitFirstChar '?' pc.1 with
      | some (server_info, query_part) => (server_info, query_part)
      | none => (pc.1, [])
    match rsplitLastChar ':' sq.1 with
    | none => none
    | some (host, port) =>
      let params := parseQs sq.2
      let net := getFirst params "type" "tcp"
      let tlsv := getFirst params "security" "tls"
      let pbkv := getFirst params "pbk" ""
      some {
        v := some "2"
        ps := some (if pc.2 = "" then "base-config" else pc.2)
        add := some (String.mk host)
        port := some (String.mk port)
        id := some (String.mk uuid_part)
        aid := some "0"
        scy := some "auto"
        net := some net
        type := some "none"
        host := some (getFirst params "host" "")
        path := some (getFirst params "path" "")
        tls := some tlsv
        sni := some (getFirst params "sni" "")
        alpn := some ""
        fp := some (getFirst params "fp" "chrome")
        pbk := some pbkv
        sid := some (getFirst params "sid" "")
        spx := some (getFirst params "spx" "")
        flow := findVal params "flow"
        encryption := findVal params "encryption"
        allowInsecure := findVal params "allowInsecure"
        configType := some (classifyConfig net tlsv pbkv) }

/-! ## The encoder (`json_to_vless_url`) -/

/-- The `if value:` truthiness filter of the encoder's optional
parameter loop: an absent key or empty string yields nothing. -/
def truthyStr (v : Option String) : Option String :=
  match v with
  | some s => if s = "" then none else some s
  | none => none

/-- One optional query parameter of `json_to_vless_url` (lines
225-229). -/
def optEntry (name : String) (v : Option String) : List (String × String) :=
  match truthyStr v with
  | some s => [(name, s)]
  | none => []

/-- The query-parameter dict of `json_to_vless_url` (lines 216-229), in
insertion order: mandatory `type` / `encryption` / `security`, `fp`
only for Reality configs, then the non-empty optional parameters. -/
def buildParams (config : Config) : List (String × String) :=
  [("type", config.net.getD "tcp"),
   ("encryption", config.encryption.getD "none"),
   ("security", config.tls.getD "tls")]
  ++ (if config.configType = some "reality" then [("fp", config.fp.getD "chrome")] else [])
  ++ optEntry "sni" config.sni
  ++ optEntry "pbk" config.pbk
  ++ optEntry "sid" config.sid
  ++ optEntry "flow" config.flow
  ++ optEntry "path" config.path
  ++ optEntry "spx" config.spx
  ++ optEntry "host" config.host
  ++ optEntry "allowInsecure" config.allowInsecure

/-- The f-string `vless://{uuid}@{host}:{port}?{query_string}` of line
233 (the URL before the optional label fragment). -/
def vlessCore (config : Config) : String :=
  "vless://" ++ config.id.getD "" ++ "@" ++ config.add.getD "" ++ ":" ++ config.port.getD ""
    ++ "?" ++ String.mk (urlencodeQS (buildParams config))

/-- `json_to_vless_url` (lines 202-248); total on the modelled configs
(for string-valued dicts the Python `except` branch is unreachable). -/
def json_to_vless_url (config : Config) : String :=
  let comment := config.ps.getD ""
  if comment = "" then vlessCore config else vlessCore config ++ "#" ++ comment

/-! ## The fan-out generator (`generate_multi_configs`) -/

/-- The copy-and-mutate step of both fan-out loops (lines 317-319 and
331-333): `dict.copy()`, then reassign `sni` and `ps`. -/
def fanoutConfig (base : Config) (sni : String) : Config :=
  { base with
    sni := some sni
    ps := some (base.ps.getD "base-config" ++ " - sni:" ++ sni) }

/-- `generate_multi_configs` (lines 302-347). The Python `if vless_url:`
guard always holds in the model because `json_to_vless_url` is total
and returns a string starting with `vless://`. -/
def generate_multi_configs (base_configs : List Config) (sni_list : List String) : List String :=
  base_configs.flatMap (fun base_config =>
    let config_type := base_config.configType.getD "unknown"
    if config_type = "reality" then
      sni_list.map (fun sni => json_to_vless_url (fanoutConfig base_config sni))
    else if config_type = "websocket" then
      sni_list.map (fun sni => json_to_vless_url (fanoutConfig base_config sni))
    else [json_to_vless_url base_config])

/-! ## Base64 (`base64.b64encode` / `b64decode`) -/

/-- The standard base64 alphabet. -/
def b64Alphabet : List Char :=
  "ABCDEFGHIJKLMNOPQRSTUVWXYZabcdefghijklmnopqrstuvwxyz0123456789+/".data

/-- Character for a 6-bit group. -/
def b64Char (n : Nat) : Char := b64Alphabet.getD n 'A'

/-- Index of a character in a list, or `none`. -/
def b64IdxAux (c : Char) : List Char → Nat → Option Nat
  | [], _ => none
  | a :: rest, i => if a = c then some i else b64IdxAux c rest (i + 1)

/-- 6-bit value of an alphabet character, `none` for anything else
(including `=`). -/
def b64Val (c : Char) : Option Nat := b64IdxAux c b64Alphabet 0

/-- `base64.b64encode` (standard alphabet, `=` padding, no line
wrapping). -/
def b64encodeBytes : List Nat → List Char
  | [] => []
  | [a] => [b64Char (a / 4), b64Char (a % 4 * 16), '=', '=']
  | [a, b] => [b64Char (a / 4), b64Char (a % 4 * 16 + b / 16), b64Char (b % 16 * 4), '=']
  | a :: b :: c :: rest =>
    b64Char (a / 4) :: b64Char (a % 4 * 16 + b / 16) :: b64Char (b % 16 * 4 + c / 64)
      :: b64Char (c % 64) :: b64encodeBytes rest

/-- CPython `binascii.a2b_base64` in its non-strict mode (what
`base64.b64decode` with the default `validate=False` calls): characters
outside the alphabet are skipped, each byte is emitted as soon as its
bits are complete, a `=` that brings the current quad to four symbols
ends the input (anything after it is discarded, so `b64decode('YQ==junk')`
is `b'a'`), a `=` earlier in a quad is ignored, and a leftover of 1-3
data characters at the end is an error. The state is the position `qp`
inside the current quad, the pending bits `lc`, and the `=` count
`pads` of the current quad. -/
def a2bBase64 : List Char → Nat → Nat → Nat → Option (List Nat)
  | [], qp, _, _ => if qp = 0 then some [] else none
  | c :: rest, qp, lc, pads =>
    if c = '=' then
      if 2 ≤ qp then
        if 4 ≤ qp + pads + 1 then some []
        else a2bBase64 rest qp lc (pads + 1)
      else a2bBase64 rest qp lc pads
    else
      match b64Val c with
      | none => a2bBase64 rest qp lc pads
      | some v =>
        if qp = 0 then a2bBase64 rest 1 v 0
        else if qp = 1 then
          (a2bBase64 rest 2 (v % 16) 0).map (fun l => (lc * 4 + v / 16) :: l)
        else if qp = 2 then
          (a2bBase64 rest 3 (v % 4) 0).map (fun l => (lc * 16 + v / 4) :: l)
        else (a2bBase64 rest 0 0 0).map (fun l => (lc * 64 + v) :: l)

/-- `base64.b64decode` on a `str` argument with the default
`validate=False`: the argument must be pure ASCII (otherwise `encode
('ascii')` raises, modelled as `none`), then `a2b_base64` decodes it. -/
def b64decodeStr (s : String) : Option (List Nat) :=
  if s.data.all (fun c => c.toNat < 128) then a2bBase64 s.data 0 0 0 else none

/-! ## `json.loads` on flat string-valued objects

`Server.py` feeds a raw (non-`vless://`) line to `json.loads` and
appends the resulting Python object as a config. The model covers the
JSON shape whose later use in the module is expressible over
string-valued dicts: a flat object with string keys and string values
(simple escapes; `\uXXXX` escapes, nested values and non-string values
are outside the model and decode to `none`). -/

/-- JSON whitespace. -/
def jsonWs (c : Char) : Bool := c = ' ' || c = '\t' || c = '\n' || c = '\r'

/-- Skip JSON whitespace. -/
def skipJsonWs (l : List Char) : List Char := l.dropWhile jsonWs

/-- One JSON string literal, after the opening quote: content and
remainder. -/
def jsonStringAux : List Char → Option (List Char × List Char)
  | [] => none
  | '"' :: rest => some ([], rest)
  | '\\' :: e :: rest =>
    match (match e with
      | '"' => some '"'
      | '\\' => some '\\'
      | '/' => some '/'
      | 'b' => some '\x08'
      | 'f' => some '\x0c'
      | 'n' => some '\n'
      | 'r' => some '\r'
      | 't' => some '\t'
      | _ => none) with
    | some c => (jsonStringAux rest).map (fun p => (c :: p.1, p.2))
    | none => none
  | c :: rest => (jsonStringAux rest).map (fun p => (c :: p.1, p.2))

/-- Member list of a flat JSON object, starting right after `{`. The
fuel bounds the number of members; call sites pass the input length,
which suffices because each member consumes at least one character. -/
def jsonMembersAux : Nat → List Char → Option (List (String × String) × List Char)
  | 0, _ => none
  | fuel + 1, l =>
    match skipJsonWs l with
    | '"' :: r1 =>
      match jsonStringAux r1 with
      | none => none
      | some (key, r2) =>
        match skipJsonWs r2 with
        | ':' :: r3 =>
          match skipJsonWs r3 with
          | '"' :: r4 =>
            match jsonStringAux r4 with
            | none => none
            | some (val, r5) =>
              match skipJsonWs r5 with
              | ',' :: r6 =>
                (jsonMembersAux fuel r6).map
                  (fun p => ((String.mk key, String.mk val) :: p.1, p.2))
              | '}' :: r6 => some ([(String.mk key, String.mk val)], r6)
              | _ => none
          | _ => none
        | _ => none
    | _ => none

/-- `json.loads` on a flat string-valued object: the member list in
source order, or `none` (Python `json.JSONDecodeError`). -/
def jsonLoadsPairs (s : String) : Option (List (String × String)) :=
  match skipJsonWs s.data with
  | '{' :: r1 =>
    let body :=
      match skipJsonWs r1 with
      | '}' :: r2 => some (([] : List (String × String)), r2)
      | _ => jsonMembersAux (s.data.length + 1) r1
    match body with
    | none => none
    | some (ms, rest) => if skipJsonWs rest = [] then some ms else none
  | _ => none

/-- Python `dict` lookup over the member list (later duplicates win, as
in `json.loads`). -/
def jsonGet (ms : List (String × String)) (k : String) : Option String :=
  findVal ms.reverse k

/-- The config record a raw-JSON line denotes: exactly the keys present
in the object — a direct field mapping; no profile tag is computed. -/
def configOfJson (ms : List (String × String)) : Config :=
  { v := jsonGet ms "v", ps := jsonGet ms "ps", add := jsonGet ms "add",
    port := jsonGet ms "port", id := jsonGet ms "id", aid := jsonGet ms "aid",
    scy := jsonGet ms "scy", net := jsonGet ms "net", type := jsonGet ms "type",
    host := jsonGet ms "host", path := jsonGet ms "path", tls := jsonGet ms "tls",
    sni := jsonGet ms "sni", alpn := jsonGet ms "alpn", fp := jsonGet ms "fp",
    pbk := jsonGet ms "pbk", sid := jsonGet ms "sid", spx := jsonGet ms "spx",
    flow := jsonGet ms "flow", encryption := jsonGet ms "encryption",
    allowInsecure := jsonGet ms "allowInsecure", configType := jsonGet ms "_config_type" }

/-- `json.loads` of one config line (model scope as above). -/
def jsonLoadsFlat (s : String) : Option Config :=
  (jsonLoadsPairs s).map configOfJson

/-! ## `get_base_configs` and the subscription pipeline -/

/-- The per-line loop of `get_base_configs` (lines 272-287): `vless://`
lines go through `parse_vless_url`; other lines try `json.loads` first
and fall back to `parse_vless_url`; lines failing everything are
skipped. -/
def processConfigLines : List String → List Config
  | [] => []
  | line :: rest =>
    let tail := processConfigLines rest
    if hasPrefixL "vless://".data line.data then
      match parse_vless_url line with
      | some c => c :: tail
      | none => tail
    else
      match jsonLoadsFlat line with
      | some c => c :: tail
      | none =>
        match parse_vless_url line with
        | some c => c :: tail
        | none => tail

/-- Lines 265-266: base64-decode then UTF-8-decode; `none` models the
exception caught at line 290. -/
def envelopeDecodedText (original_content : String) : Option String :=
  (b64decodeStr original_content).bind utf8Decode

/-- Line 268: `[line.strip() for line in decoded_content.split('\n') if
line.strip()]`. -/
def splitConfigLines (decoded_content : String) : List String :=
  ((splitAllChar '\n' decoded_content.data).map pyStripL).filterMap
    (fun l => if l = [] then none else some (String.mk l))

/-- `get_base_configs` after the HTTP fetch (lines 260-292): the
argument is `response.text`; an envelope decode failure is caught and
yields `[]`. -/
def get_base_configs (response_text : String) : List Config :=
  match envelopeDecodedText (pyStrip response_text) with
  | none => []
  | some decoded_content => processConfigLines (splitConfigLines decoded_content)

/-- `'\n'.join`. -/
def joinLines : List String → List Char
  | [] => []
  | [s] => s.data
  | s :: rest => s.data ++ '\n' :: joinLines rest

/-- Lines 380-381: join with newlines, UTF-8-encode, base64-encode (the
output envelope). -/
def encodeEnvelope (lines : List String) : String :=
  String.mk (b64encodeBytes (utf8Encode (String.mk (joinLines lines))))

/-- The envelope decoding of §4.4 as `get_base_configs` implements it:
trim, base64-decode, UTF-8-decode, split on newlines, strip each line,
drop blanks. -/
def decodeEnvelope (text : String) : Option (List String) :=
  (envelopeDecodedText (pyStrip text)).map splitConfigLines

/-- `multi_subscription` after its collaborators (lines 355-384): takes
the SNI list from the database and the fetched envelope text, returns
the plain-text response body. -/
def multi_subscription (sni_list : List String) (response_text : String) : String :=
  let base_configs := get_base_configs response_text
  if base_configs = [] then "Error: No valid configurations found in base subscription"
  else
    let multi_configs := generate_multi_configs base_configs sni_list
    if multi_configs = [] then "Error: No configurations generated"
    else encodeEnvelope multi_configs

/-! ## Well-formedness for the round-trip property -/

/-- All characters ASCII: the formalisation scope for values carried in
the query string (they pass through the percent codec). -/
def asciiStr (s : String) : Bool := s.data.all (fun c => c.toNat < 128)

/-- `asciiStr` on an optional field (`none` is fine). -/
def asciiOpt : Option String → Bool
  | some s => asciiStr s
  | none => true

/-- Well-formedness of a ProxyLink record: the conditions under which
the wire format can represent the record at all — the constant fields
the decoder always produces, presence of the always-present keys, the
consumed separator characters absent from the positional fields, a
non-empty percent-free label, non-empty network and security types
(`parse_qs` drops empty values), a fingerprint consistent with the
encoder's Reality-only emission rule, ASCII values for everything
carried in the query string, and a profile tag that matches the
classifier. Every output of `parse_vless_url` on an ASCII URL without
percent escapes in its label satisfies these conditions. -/
structure WellFormed (x : Config) : Prop where
  hv : x.v = some "2"
  haid : x.aid = some "0"
  hscy : x.scy = some "auto"
  htyp : x.type = some "none"
  halpn : x.alpn = some ""
  hid : ∃ i, x.id = some i ∧ '@' ∉ i.data
  hadd : ∃ h, x.add = some h ∧ '#' ∉ h.data ∧ '?' ∉ h.data
  hport : ∃ p, x.port = some p ∧ '#' ∉ p.data ∧ '?' ∉ p.data ∧ ':' ∉ p.data
  hps : ∃ l, x.ps = some l ∧ l ≠ "" ∧ '%' ∉ l.data
  hnet : ∃ n, x.net = some n ∧ n ≠ "" ∧ asciiStr n
  htls : ∃ t, x.tls = some t ∧ t ≠ "" ∧ asciiStr t
  hsni : ∃ s, x.sni = some s ∧ asciiStr s
  hpbk : ∃ s, x.pbk = some s ∧ asciiStr s
  hsid : ∃ s, x.sid = some s ∧ asciiStr s
  hpath : ∃ s, x.path = some s ∧ asciiStr s
  hspx : ∃ s, x.spx = some s ∧ asciiStr s
  hhost : ∃ s, x.host = some s ∧ asciiStr s
  hflow : asciiOpt x.flow
  henc : asciiOpt x.encryption
  hins : asciiOpt x.allowInsecure
  hfp : if x.configType = some "reality" then ∃ f, x.fp = some f ∧ f ≠ "" ∧ asciiStr f
        else x.fp = some "chrome"
  htag : x.configType = some (classifyConfig (x.net.getD "") (x.tls.getD "") (x.pbk.getD ""))

/-- The claim's condition on the optional fields: each tri-state
optional field is fully unset or set to a non-empty value. For the
always-present optional fields (sni, public key, short-id, path, spx,
inbound host) the empty string is the unset state, so the condition is
already implied by `WellFormed`. -/
def OptUnsetOrNonEmpty (x : Config) : Prop :=
  x.flow ≠ some "" ∧ x.encryption ≠ some "" ∧ x.allowInsecure ≠ some ""

/-- Hypotheses under which `parse_qs` inverts `urlencode` on a pair
list: non-empty always-safe ASCII keys and non-empty ASCII values. -/
def goodPair (p : String × String) : Prop :=
  p.1 ≠ "" ∧ (∀ c ∈ p.1.data, pySafe c) ∧ (∀ c ∈ p.1.data, c.toNat < 128)
    ∧ p.2 ≠ "" ∧ (∀ c ∈ p.2.data, c.toNat < 128)

/-! # Lemmas -/

/-! ## Splits and prefixes -/

theorem splitFirstChar_of_not_mem {sep : Char} {l : List Char} (h : sep ∉ l) :
    splitFirstChar sep l = none := by
  induction l with
  | nil => rfl
  | cons c rest ih =>
    simp only [List.mem_cons, not_or] at h
    simp [splitFirstChar, Ne.symm h.1, ih h.2]

theorem splitFirstChar_append {sep : Char} {l r : List Char} (h : sep ∉ l) :
    splitFirstChar sep (l ++ sep :: r) = some (l, r) := by
  induction l with
  | nil => simp [splitFirstChar]
  | cons c rest ih =>
    simp only [List.mem_cons, not_or] at h
    simp [splitFirstChar, Ne.symm h.1, ih h.2]

theorem rsplitLastChar_of_not_mem {sep : Char} {l : List Char} (h : sep ∉ l) :
    rsplitLastChar sep l = none := by
  have h2 : sep ∉ l.reverse := by simpa using h
  simp [rsplitLastChar, splitFirstChar_of_not_mem h2]

theorem rsplitLastChar_append {sep : Char} {xs ys : List Char} (h : sep ∉ ys) :
    rsplitLastChar sep (xs ++ sep :: ys) = some (xs, ys) := by
  have h2 : sep ∉ ys.reverse := by simpa using h
  have : (xs ++ sep :: ys).reverse = ys.reverse ++ sep :: xs.reverse := by
    simp [List.reverse_append]
  simp [rsplitLastChar, this, splitFirstChar_append h2]

theorem consHead_ne_nil (c : Char) (L : List (List Char)) : consHead c L ≠ [] := by
  cases L <;> simp [consHead]

theorem splitAllChar_ne_nil {sep : Char} (l : List Char) : splitAllChar sep l ≠ [] := by
  cases l with
  | nil => simp [splitAllChar]
  | cons c rest =>
    by_cases hc : c = sep <;> simp [splitAllChar, hc, consHead_ne_nil]

theorem splitAllChar_of_not_mem {sep : Char} {l : List Char} (h : sep ∉ l) :
    splitAllChar sep l = [l] := by
  induction l with
  | nil => rfl
  | cons c rest ih =>
    simp only [List.mem_cons, not_or] at h
    simp [splitAllChar, ih h.2, Ne.symm h.1, consHead]

theorem splitAllChar_append {sep : Char} {xs ys : List Char} (h : sep ∉ xs) :
    splitAllChar sep (xs ++ sep :: ys) = xs :: splitAllChar sep ys := by
  induction xs with
  | nil => simp [splitAllChar]
  | cons c rest ih =>
    simp only [List.mem_cons, not_or] at h
    simp [splitAllChar, Ne.symm h.1, ih h.2, consHead]

theorem hasPrefixL_append (p rest : List Char) : hasPrefixL p (p ++ rest) = true := by
  induction p with
  | nil => rfl
  | cons c t ih => simp [hasPrefixL, ih]

/-! ## Character and UTF-8 facts -/

theorem char_toNat_lt (c : Char) : c.toNat < 1114112 := by
  rcases c.valid with h | h
  · exact Nat.lt_trans h (by norm_num)
  · exact h.2

theorem utf8EncodeCp_ascii {n : Nat} (h : n < 128) : utf8EncodeCp n = [n] := by
  simp [utf8EncodeCp, h]

theorem utf8EncodeCp_lt_256 {n b : Nat} (hn : n < 1114112) (hb : b ∈ utf8EncodeCp n) :
    b < 256 := by
  unfold utf8EncodeCp at hb
  split at hb
  · simp only [List.mem_singleton] at hb; omega
  · split at hb
    · simp only [List.mem_cons, List.mem_singleton, List.not_mem_nil, or_false] at hb
      rcases hb with hb | hb <;> omega
    · split at hb
      · simp only [List.mem_cons, List.mem_singleton, List.not_mem_nil, or_false] at hb
        rcases hb with hb | hb | hb <;> omega
      · simp only [List.mem_cons, List.mem_singleton, List.not_mem_nil, or_false] at hb
        rcases hb with hb | hb | hb | hb <;> omega

theorem utf8EncodeCp_ne_nil (n : Nat) : utf8EncodeCp n ≠ [] := by
  unfold utf8EncodeCp
  split
  · simp
  · split
    · simp
    · split <;> simp

theorem utf8DecodeReplace_nil : utf8DecodeReplace [] = [] := rfl

theorem utf8ReplaceLoop_ascii {bs : List Nat} (h : ∀ b ∈ bs, b < 128) :
    utf8ReplaceLoop bs none = bs.map Char.ofNat := by
  induction bs with
  | nil => rfl
  | cons b rest ih =>
    have hb : b < 0x80 := h b (by simp)
    simp only [utf8ReplaceLoop]
    rw [show utf8Lead b = .ascii b by simp [utf8Lead, hb]]
    simp [ih (fun x hx => h x (by simp [hx]))]

theorem utf8DecodeReplace_ascii {bs : List Nat} (h : ∀ b ∈ bs, b < 128) :
    utf8DecodeReplace bs = bs.map Char.ofNat :=
  utf8ReplaceLoop_ascii h

/-! ## Hex digits -/

theorem hexVal_hexDigitU : ∀ n < 16, hexVal (hexDigitU n) = some n := by decide

theorem hexDigitU_props : ∀ n < 16, pySafe (hexDigitU n) = true ∧ hexDigitU n ≠ '+'
    ∧ hexDigitU n ≠ '%' := by decide

/-! ## quote_plus output character class -/

theorem quotePlusL_cons (c : Char) (rest : List Char) :
    quotePlusL (c :: rest) = quotePlusChar c ++ quotePlusL rest := rfl

theorem quotePlusChar_ne_nil (c : Char) : quotePlusChar c ≠ [] := by
  unfold quotePlusChar
  split
  · simp
  · split
    · simp
    · obtain ⟨b, bs, heq⟩ := List.exists_cons_of_ne_nil (utf8EncodeCp_ne_nil c.toNat)
      rw [heq]
      simp [pctByte]

theorem mem_quotePlusChar {a c : Char} (h : c ∈ quotePlusChar a) :
    pySafe c = true ∨ c = '+' ∨ c = '%' := by
  unfold quotePlusChar at h
  split at h
  · simp only [List.mem_singleton] at h; subst h; left; assumption
  · split at h
    · right; left; simpa using h
    · simp only [List.mem_flatMap] at h
      obtain ⟨b, hb, hc⟩ := h
      have hb256 : b < 256 := utf8EncodeCp_lt_256 (char_toNat_lt a) hb
      simp only [pctByte, List.mem_cons, List.not_mem_nil, or_false] at hc
      rcases hc with hc | hc | hc
      · right; right; exact hc
      · subst hc
        exact Or.inl (hexDigitU_props (b / 16) (by omega)).1
      · subst hc
        exact Or.inl (hexDigitU_props (b % 16) (by omega)).1

theorem mem_quotePlusL {l : List Char} {c : Char} (h : c ∈ quotePlusL l) :
    pySafe c = true ∨ c = '+' ∨ c = '%' := by
  simp only [quotePlusL, List.mem_flatMap] at h
  obtain ⟨a, _, hc⟩ := h
  exact mem_quotePlusChar hc

theorem not_mem_quotePlusL {c : Char} (l : List Char)
    (h : (pySafe c || (c = '+' : Bool) || (c = '%' : Bool)) = false) : c ∉ quotePlusL l := by
  intro hmem
  rcases mem_quotePlusL hmem with h1 | h1 | h1 <;> simp [h1] at h

theorem quotePlusL_ne_nil {l : List Char} (h : l ≠ []) : quotePlusL l ≠ [] := by
  cases l with
  | nil => simp at h
  | cons c rest =>
    simp only [quotePlusL, List.flatMap_cons]
    intro hc
    exact quotePlusChar_ne_nil c (List.append_eq_nil.mp hc).1

/-! ## unquote inverts quote_plus on ASCII input -/

theorem unquoteAux_cons_ne {c : Char} {rest : List Char} {acc : List Nat} (h : c ≠ '%') :
    unquoteAux (c :: rest) acc = utf8DecodeReplace acc ++ c :: unquoteAux rest [] := by
  rw [unquoteAux.eq_def]
  split <;> simp_all

theorem unquoteAux_no_pct {l : List Char} (h : '%' ∉ l) : unquoteAux l [] = l := by
  induction l with
  | nil => rfl
  | cons c rest ih =>
    simp only [List.mem_cons, not_or] at h
    rw [unquoteAux_cons_ne (Ne.symm h.1), ih h.2]
    rfl

theorem pyUnquote_no_pct {s : String} (h : '%' ∉ s.data) : pyUnquote s = s := by
  simp [pyUnquote, unquoteAux_no_pct h]

theorem unquoteAux_quotePlus {l : List Char} (hl : ∀ c ∈ l, c.toNat < 128) :
    ∀ acc : List Nat, (∀ b ∈ acc, b < 128) →
      unquoteAux ((quotePlusL l).map (fun c => if c = '+' then ' ' else c)) acc
        = utf8DecodeReplace acc ++ l := by
  induction l with
  | nil =>
    intro acc hacc
    simp [quotePlusL, unquoteAux]
  | cons c rest ih =>
    intro acc hacc
    have hc : c.toNat < 128 := hl c (by simp)
    have hrest : ∀ a ∈ rest, a.toNat < 128 := fun a ha => hl a (by simp [ha])
    rw [quotePlusL_cons, List.map_append]
    by_cases hsafe : pySafe c
    · have hplus : c ≠ '+' := fun e => absurd (e ▸ hsafe) (by decide)
      have hpct : c ≠ '%' := fun e => absurd (e ▸ hsafe) (by decide)
      rw [show (quotePlusChar c).map (fun c => if c = '+' then ' ' else c) = [c] by
        simp [quotePlusChar, hsafe, hplus]]
      rw [List.singleton_append, unquoteAux_cons_ne hpct]
      have h2 := ih hrest [] (by simp)
      rw [utf8DecodeReplace_nil, List.nil_append] at h2
      rw [h2]
    · by_cases hsp : c = ' '
      · subst hsp
        rw [show (quotePlusChar ' ').map (fun c => if c = '+' then ' ' else c) = [' '] by
          decide]
        rw [List.singleton_append, unquoteAux_cons_ne (by decide)]
        have h2 := ih hrest [] (by simp)
        rw [utf8DecodeReplace_nil, List.nil_append] at h2
        rw [h2]
      · have henc : quotePlusChar c = pctByte c.toNat := by
          simp [quotePlusChar, hsafe, hsp, utf8EncodeCp_ascii hc]
        have hd1 : hexDigitU (c.toNat / 16) ≠ '+' := (hexDigitU_props _ (by omega)).2.1
        have hd2 : hexDigitU (c.toNat % 16) ≠ '+' := (hexDigitU_props _ (by omega)).2.1
        rw [henc]
        rw [show (pctByte c.toNat).map (fun c => if c = '+' then ' ' else c)
            = ['%', hexDigitU (c.toNat / 16), hexDigitU (c.toNat % 16)] by
          simp [pctByte, hd1, hd2]]
        have hv1 : hexVal (hexDigitU (c.toNat / 16)) = some (c.toNat / 16) :=
          hexVal_hexDigitU _ (by omega)
        have hv2 : hexVal (hexDigitU (c.toNat % 16)) = some (c.toNat % 16) :=
          hexVal_hexDigitU _ (by omega)
        have hstep : unquoteAux ('%' :: hexDigitU (c.toNat / 16) :: hexDigitU (c.toNat % 16)
              :: (quotePlusL rest).map (fun c => if c = '+' then ' ' else c)) acc
            = unquoteAux ((quotePlusL rest).map (fun c => if c = '+' then ' ' else c))
              (acc ++ [16 * (c.toNat / 16) + c.toNat % 16]) := by
          rw [unquoteAux, hv1, hv2]
        have hmod : 16 * (c.toNat / 16) + c.toNat % 16 = c.toNat := Nat.div_add_mod _ 16
        rw [List.cons_append, List.cons_append, List.cons_append, List.nil_append, hstep, hmod]
        rw [ih hrest (acc ++ [c.toNat]) (by
          intro b hb
          rcases List.mem_append.mp hb with hb | hb
          · exact hacc b hb
          · simp at hb; omega)]
        rw [utf8DecodeReplace_ascii (by
          intro b hb
          rcases List.mem_append.mp hb with hb | hb
          · exact hacc b hb
          · simp at hb; omega)]
        rw [utf8DecodeReplace_ascii hacc]
        simp [Char.ofNat_toNat]

theorem unquotePlus_quotePlusL {l : List Char} (hl : ∀ c ∈ l, c.toNat < 128) :
    unquotePlus (String.mk (quotePlusL l)) = String.mk l := by
  have h2 := unquoteAux_quotePlus hl [] (by simp)
  rw [utf8DecodeReplace_nil, List.nil_append] at h2
  simp [unquotePlus, h2]

/-! ## Strings -/

theorem mk_data_eq (s : String) : String.mk s.data = s := rfl

theorem str_eq_empty_iff {s : String} : s = "" ↔ s.data = [] := by
  constructor
  · intro h; rw [h]
  · intro h
    have h2 := congrArg String.mk h
    rwa [mk_data_eq] at h2

/-! ## parse_qs inverts urlencode -/

theorem findVal_nil (k : String) : findVal [] k = none := rfl

theorem findVal_cons_self (k v : String) (l : List (String × String)) :
    findVal ((k, v) :: l) k = some v := by
  simp [findVal]

theorem findVal_cons_ne {k' k : String} (h : k' ≠ k) (v : String) (l : List (String × String)) :
    findVal ((k, v) :: l) k' = findVal l k' := by
  have hb : (k == k') = false := beq_eq_false_iff_ne.mpr (Ne.symm h)
  simp [findVal, List.find?, hb]

theorem findVal_optEntry (k : String) (v : Option String) (l : List (String × String)) :
    findVal (optEntry k v ++ l) k
      = match truthyStr v with | some s => some s | none => findVal l k := by
  cases htr : truthyStr v with
  | none => simp [optEntry, htr]
  | some s => simp [optEntry, htr, findVal_cons_self]

theorem findVal_optEntry_ne {k' k : String} (h : k' ≠ k) (v : Option String)
    (l : List (String × String)) : findVal (optEntry k v ++ l) k' = findVal l k' := by
  cases htr : truthyStr v with
  | none => simp [optEntry, htr]
  | some s => simp [optEntry, htr, findVal_cons_ne h]

theorem findVal_fpPart_ne {k : String} (h : k ≠ "fp") {cond : Prop} [Decidable cond]
    (v : String) (l : List (String × String)) :
    findVal ((if cond then [("fp", v)] else []) ++ l) k = findVal l k := by
  split
  · rw [List.singleton_append, findVal_cons_ne h]
  · rw [List.nil_append]

theorem parseQsField_enc {p : String × String} (hp : goodPair p) :
    parseQsField (quotePlusL p.1.data ++ '=' :: quotePlusL p.2.data) = [p] := by
  obtain ⟨hk1, hk2, hk3, hv1, hv2⟩ := hp
  have hkeq : '=' ∉ quotePlusL p.1.data := not_mem_quotePlusL _ (by decide)
  have hvne : quotePlusL p.2.data ≠ [] :=
    quotePlusL_ne_nil (fun e => hv1 (str_eq_empty_iff.mpr e))
  have hne : quotePlusL p.1.data ++ '=' :: quotePlusL p.2.data ≠ [] := by simp
  unfold parseQsField
  rw [if_neg hne, splitFirstChar_append hkeq]
  simp only [if_neg hvne]
  rw [unquotePlus_quotePlusL hk3, unquotePlus_quotePlusL hv2]

theorem parseQs_urlencodeQS : ∀ pairs : List (String × String), (∀ p ∈ pairs, goodPair p) →
    parseQs (urlencodeQS pairs) = pairs := by
  intro pairs
  induction pairs with
  | nil => intro _; rfl
  | cons p rest ih =>
    intro hall
    have hp := hall p (by simp)
    have hrest : ∀ q ∈ rest, goodPair q := fun q hq => hall q (by simp [hq])
    have hamp : '&' ∉ quotePlusL p.1.data ++ '=' :: quotePlusL p.2.data := by
      intro hmem
      rcases List.mem_append.mp hmem with hmem | hmem
      · exact not_mem_quotePlusL _ (by decide) hmem
      · rcases List.mem_cons.mp hmem with hmem | hmem
        · exact absurd hmem (by decide)
        · exact not_mem_quotePlusL _ (by decide) hmem
    cases rest with
    | nil =>
      unfold parseQs urlencodeQS
      rw [splitAllChar_of_not_mem hamp]
      simp [parseQsField_enc hp]
    | cons q rest2 =>
      unfold parseQs
      rw [show urlencodeQS (p :: q :: rest2)
          = (quotePlusL p.1.data ++ '=' :: quotePlusL p.2.data) ++ '&' :: urlencodeQS (q :: rest2) by
        simp [urlencodeQS, List.append_assoc]]
      rw [splitAllChar_append hamp]
      rw [List.flatMap_cons, parseQsField_enc hp]
      rw [show (splitAllChar '&' (urlencodeQS (q :: rest2))).flatMap parseQsField
          = parseQs (urlencodeQS (q :: rest2)) from rfl]
      rw [ih hrest]
      rfl

/-! ## Lookups in the encoder's parameter dict -/

theorem findVal_optEntry_self {k : String} {v : Option String} {l : List (String × String)}
    (hrest : findVal l k = none) : findVal (optEntry k v ++ l) k = truthyStr v := by
  rw [findVal_optEntry]
  cases truthyStr v with
  | some s => rfl
  | none => exact hrest

theorem findVal_optEntry_only_ne {k' k : String} (h : k' ≠ k) (v : Option String) :
    findVal (optEntry k v) k' = none := by
  have h2 := findVal_optEntry_ne h v []
  rwa [List.append_nil] at h2

theorem findVal_optEntry_only (k : String) (v : Option String) :
    findVal (optEntry k v) k = truthyStr v := by
  have h2 := findVal_optEntry_self (k := k) (v := v) (findVal_nil k)
  rwa [List.append_nil] at h2

theorem buildParams_type (x : Config) :
    findVal (buildParams x) "type" = some (x.net.getD "tcp") := by
  simp only [buildParams, List.cons_append, List.nil_append, List.append_assoc]
  rw [findVal_cons_self]

theorem buildParams_encryption (x : Config) :
    findVal (buildParams x) "encryption" = some (x.encryption.getD "none") := by
  simp only [buildParams, List.cons_append, List.nil_append, List.append_assoc]
  rw [findVal_cons_ne (by decide), findVal_cons_self]

theorem buildParams_security (x : Config) :
    findVal (buildParams x) "security" = some (x.tls.getD "tls") := by
  simp only [buildParams, List.cons_append, List.nil_append, List.append_assoc]
  rw [findVal_cons_ne (by decide), findVal_cons_ne (by decide), findVal_cons_self]

theorem buildParams_fp (x : Config) :
    findVal (buildParams x) "fp"
      = if x.configType = some "reality" then some (x.fp.getD "chrome") else none := by
  simp only [buildParams, List.cons_append, List.nil_append, List.append_assoc]
  rw [findVal_cons_ne (by decide), findVal_cons_ne (by decide), findVal_cons_ne (by decide)]
  split
  · rw [List.singleton_append, findVal_cons_self]
  · rw [List.nil_append]
    rw [findVal_optEntry_ne (by decide), findVal_optEntry_ne (by decide),
        findVal_optEntry_ne (by decide), findVal_optEntry_ne (by decide),
        findVal_optEntry_ne (by decide), findVal_optEntry_ne (by decide),
        findVal_optEntry_ne (by decide), findVal_optEntry_only_ne (by decide)]

theorem buildParams_sni (x : Config) :
    findVal (buildParams x) "sni" = truthyStr x.sni := by
  simp only [buildParams, List.cons_append, List.nil_append, List.append_assoc]
  rw [findVal_cons_ne (by decide), findVal_cons_ne (by decide), findVal_cons_ne (by decide),
      findVal_fpPart_ne (by decide)]
  exact findVal_optEntry_self (by
    rw [findVal_optEntry_ne (by decide), findVal_optEntry_ne (by decide),
        findVal_optEntry_ne (by decide), findVal_optEntry_ne (by decide),
        findVal_optEntry_ne (by decide), findVal_optEntry_ne (by decide),
        findVal_optEntry_only_ne (by decide)])

theorem buildParams_pbk (x : Config) :
    findVal (buildParams x) "pbk" = truthyStr x.pbk := by
  simp only [buildParams, List.cons_append, List.nil_append, List.append_assoc]
  rw [findVal_cons_ne (by decide), findVal_cons_ne (by decide), findVal_cons_ne (by decide),
      findVal_fpPart_ne (by decide), findVal_optEntry_ne (by decide)]
  exact findVal_optEntry_self (by
    rw [findVal_optEntry_ne (by decide), findVal_optEntry_ne (by decide),
        findVal_optEntry_ne (by decide), findVal_optEntry_ne (by decide),
        findVal_optEntry_ne (by decide), findVal_optEntry_only_ne (by decide)])

theorem buildParams_sid (x : Config) :
    findVal (buildParams x) "sid" = truthyStr x.sid := by
  simp only [buildParams, List.cons_append, List.nil_append, List.append_assoc]
  rw [findVal_cons_ne (by decide), findVal_cons_ne (by decide), findVal_cons_ne (by decide),
      findVal_fpPart_ne (by decide), findVal_optEntry_ne (by decide),
      findVal_optEntry_ne (by decide)]
  exact findVal_optEntry_self (by
    rw [findVal_optEntry_ne (by decide), findVal_optEntry_ne (by decide),
        findVal_optEntry_ne (by decide), findVal_optEntry_ne (by decide),
        findVal_optEntry_only_ne (by decide)])

theorem buildParams_flow (x : Config) :
    findVal (buildParams x) "flow" = truthyStr x.flow := by
  simp only [buildParams, List.cons_append, List.nil_append, List.append_assoc]
  rw [findVal_cons_ne (by decide), findVal_cons_ne (by decide), findVal_cons_ne (by decide),
      findVal_fpPart_ne (by decide), findVal_optEntry_ne (by decide),
      findVal_optEntry_ne (by decide), findVal_optEntry_ne (by decide)]
  exact findVal_optEntry_self (by
    rw [findVal_optEntry_ne (by decide), findVal_optEntry_ne (by decide),
        findVal_optEntry_ne (by decide), findVal_optEntry_only_ne (by decide)])

theorem buildParams_path (x : Config) :
    findVal (buildParams x) "path" = truthyStr x.path := by
  simp only [buildParams, List.cons_append, List.nil_append, List.append_assoc]
  rw [findVal_cons_ne (by decide), findVal_cons_ne (by decide), findVal_cons_ne (by decide),
      findVal_fpPart_ne (by decide), findVal_optEntry_ne (by decide),
      findVal_optEntry_ne (by decide), findVal_optEntry_ne (by decide),
      findVal_optEntry_ne (by decide)]
  exact findVal_optEntry_self (by
    rw [findVal_optEntry_ne (by decide), findVal_optEntry_ne (by decide),
        findVal_optEntry_only_ne (by decide)])

theorem buildParams_spx (x : Config) :
    findVal (buildParams x) "spx" = truthyStr x.spx := by
  simp only [buildParams, List.cons_append, List.nil_append, List.append_assoc]
  rw [findVal_cons_ne (by decide), findVal_cons_ne (by decide), findVal_cons_ne (by decide),
      findVal_fpPart_ne (by decide), findVal_optEntry_ne (by decide),
      findVal_optEntry_ne (by decide), findVal_optEntry_ne (by decide),
      findVal_optEntry_ne (by decide), findVal_optEntry_ne (by decide)]
  exact findVal_optEntry_self (by
    rw [findVal_optEntry_ne (by decide), findVal_optEntry_only_ne (by decide)])

theorem buildParams_host (x : Config) :
    findVal (buildParams x) "host" = truthyStr x.host := by
  simp only [buildParams, List.cons_append, List.nil_append, List.append_assoc]
  rw [findVal_cons_ne (by decide), findVal_cons_ne (by decide), findVal_cons_ne (by decide),
      findVal_fpPart_ne (by decide), findVal_optEntry_ne (by decide),
      findVal_optEntry_ne (by decide), findVal_optEntry_ne (by decide),
      findVal_optEntry_ne (by decide), findVal_optEntry_ne (by decide),
      findVal_optEntry_ne (by decide)]
  exact findVal_optEntry_self (findVal_optEntry_only_ne (by decide) _)

theorem buildParams_allowInsecure (x : Config) :
    findVal (buildParams x) "allowInsecure" = truthyStr x.allowInsecure := by
  simp only [buildParams, List.cons_append, List.nil_append, List.append_assoc]
  rw [findVal_cons_ne (by decide), findVal_cons_ne (by decide), findVal_cons_ne (by decide),
      findVal_fpPart_ne (by decide), findVal_optEntry_ne (by decide),
      findVal_optEntry_ne (by decide), findVal_optEntry_ne (by decide),
      findVal_optEntry_ne (by decide), findVal_optEntry_ne (by decide),
      findVal_optEntry_ne (by decide), findVal_optEntry_ne (by decide)]
  exact findVal_optEntry_only _ _

/-! ## Truthiness and value helpers -/

theorem truthyStr_none : truthyStr none = none := rfl

theorem truthyStr_some (t : String) : truthyStr (some t) = if t = "" then none else some t := rfl

theorem truthyStr_eq_some {v : Option String} {s : String} (h : truthyStr v = some s) :
    v = some s ∧ s ≠ "" := by
  cases v with
  | none => simp [truthyStr_none] at h
  | some t =>
    rw [truthyStr_some] at h
    by_cases ht : t = ""
    · rw [if_pos ht] at h; exact absurd h (by simp)
    · rw [if_neg ht] at h
      injection h with h2
      subst h2
      exact ⟨rfl, ht⟩

theorem truthyStr_eq_self {v : Option String} (h : v ≠ some "") : truthyStr v = v := by
  cases v with
  | none => rfl
  | some s =>
    rw [truthyStr_some, if_neg (fun e => h (by rw [e]))]

theorem getD_truthy (s : String) : (truthyStr (some s)).getD "" = s := by
  rw [truthyStr_some]
  by_cases hs : s = ""
  · rw [if_pos hs]; simp [hs]
  · rw [if_neg hs]; rfl

theorem asciiStr_forall {s : String} (h : asciiStr s) : ∀ c ∈ s.data, c.toNat < 128 := by
  simpa [asciiStr] using h

/-! ## Character class of urlencode output -/

theorem mem_urlencodeQS {pairs : List (String × String)} {c : Char} (h : c ∈ urlencodeQS pairs) :
    pySafe c = true ∨ c = '+' ∨ c = '%' ∨ c = '=' ∨ c = '&' := by
  induction pairs with
  | nil => simp [urlencodeQS] at h
  | cons p rest ih =>
    cases rest with
    | nil =>
      simp only [urlencodeQS, List.mem_append, List.mem_cons] at h
      rcases h with h | h | h
      · have := mem_quotePlusL h; tauto
      · subst h; tauto
      · have := mem_quotePlusL h; tauto
    | cons q rest2 =>
      simp only [urlencodeQS, List.append_assoc, List.cons_append, List.mem_append,
        List.mem_cons] at h
      rcases h with h | h | h | h | h
      · have := mem_quotePlusL h; tauto
      · subst h; tauto
      · have := mem_quotePlusL h; tauto
      · subst h; tauto
      · have := ih h; tauto

/-! ## The encoder's parameters satisfy the parse_qs inversion conditions -/

theorem goodPair_mk {k v : String}
    (hk : k ≠ "" ∧ (∀ c ∈ k.data, pySafe c) ∧ (∀ c ∈ k.data, c.toNat < 128))
    (hv : v ≠ "") (ha : asciiStr v) : goodPair (k, v) :=
  ⟨hk.1, hk.2.1, hk.2.2, hv, asciiStr_forall ha⟩

theorem mem_optEntry {p : String × String} {k : String} {v : Option String}
    (h : p ∈ optEntry k v) : p.1 = k ∧ v = some p.2 ∧ p.2 ≠ "" := by
  cases htr : truthyStr v with
  | none => simp [optEntry, htr] at h
  | some s =>
    simp only [optEntry, htr, List.mem_singleton] at h
    subst h
    obtain ⟨hv, hs⟩ := truthyStr_eq_some htr
    exact ⟨rfl, hv, hs⟩

theorem optEntry_goodPair {k : String} {v : Option String}
    (hk : k ≠ "" ∧ (∀ c ∈ k.data, pySafe c) ∧ (∀ c ∈ k.data, c.toNat < 128))
    (ha : asciiOpt v) : ∀ p ∈ optEntry k v, goodPair p := by
  intro p hp
  obtain ⟨hp1, hp2, hp3⟩ := mem_optEntry hp
  have hav : asciiStr p.2 := by rw [hp2] at ha; exact ha
  obtain ⟨pk, pv⟩ := p
  simp only at hp1 hp2 hp3
  subst hp1
  exact goodPair_mk hk hp3 hav

theorem buildParams_good {x : Config} (wf : WellFormed x)
    (henc2 : ∃ e, x.encryption = some e ∧ e ≠ "" ∧ asciiStr e) :
    ∀ p ∈ buildParams x, goodPair p := by
  intro p hp
  obtain ⟨n, hnet, hnne, hna⟩ := wf.hnet
  obtain ⟨t, htls, htne, hta⟩ := wf.htls
  obtain ⟨e, henc, hene, hea⟩ := henc2
  simp only [buildParams, List.append_assoc, List.cons_append, List.nil_append,
    List.mem_cons, List.mem_append] at hp
  rcases hp with hp | hp | hp | hp | hp | hp | hp | hp | hp | hp | hp | hp
  · subst hp
    rw [hnet]
    exact goodPair_mk (by refine ⟨by decide, ?_, ?_⟩ <;> decide) hnne hna
  · subst hp
    rw [henc]
    exact goodPair_mk (by refine ⟨by decide, ?_, ?_⟩ <;> decide) hene hea
  · subst hp
    rw [htls]
    exact goodPair_mk (by refine ⟨by decide, ?_, ?_⟩ <;> decide) htne hta
  · have hfp := wf.hfp
    split at hp
    · rename_i hcond
      rw [if_pos hcond] at hfp
      obtain ⟨f, hf, hfne, hfa⟩ := hfp
      rw [List.mem_singleton] at hp
      subst hp
      rw [hf]
      exact goodPair_mk (by refine ⟨by decide, ?_, ?_⟩ <;> decide) hfne hfa
    · simp at hp
  · exact optEntry_goodPair (by refine ⟨by decide, ?_, ?_⟩ <;> decide)
      (by obtain ⟨s, hs, ha⟩ := wf.hsni; rw [hs]; exact ha) p hp
  · exact optEntry_goodPair (by refine ⟨by decide, ?_, ?_⟩ <;> decide)
      (by obtain ⟨s, hs, ha⟩ := wf.hpbk; rw [hs]; exact ha) p hp
  · exact optEntry_goodPair (by refine ⟨by decide, ?_, ?_⟩ <;> decide)
      (by obtain ⟨s, hs, ha⟩ := wf.hsid; rw [hs]; exact ha) p hp
  · exact optEntry_goodPair (by refine ⟨by decide, ?_, ?_⟩ <;> decide) wf.hflow p hp
  · exact optEntry_goodPair (by refine ⟨by decide, ?_, ?_⟩ <;> decide)
      (by obtain ⟨s, hs, ha⟩ := wf.hpath; rw [hs]; exact ha) p hp
  · exact optEntry_goodPair (by refine ⟨by decide, ?_, ?_⟩ <;> decide)
      (by obtain ⟨s, hs, ha⟩ := wf.hspx; rw [hs]; exact ha) p hp
  · exact optEntry_goodPair (by refine ⟨by decide, ?_, ?_⟩ <;> decide)
      (by obtain ⟨s, hs, ha⟩ := wf.hhost; rw [hs]; exact ha) p hp
  · exact optEntry_goodPair (by refine ⟨by decide, ?_, ?_⟩ <;> decide) wf.hins p hp


theorem hasPrefixL_nil (cs : List Char) : hasPrefixL [] cs = true := rfl

theorem hasPrefixL_cons (p c : Char) (ps cs : List Char) :
    hasPrefixL (p :: ps) (c :: cs) = (p = c && hasPrefixL ps cs) := rfl

theorem drop8_vless (R : List Char) :
    List.drop 8 (['v', 'l', 'e', 's', 's', ':', '/', '/'] ++ R) = R := by
  rw [show (8 : Nat) = (['v', 'l', 'e', 's', 's', ':', '/', '/'] : List Char).length from rfl]
  exact List.drop_left _ _

theorem parse_assembled (i ho po Q l : List Char)
    (hidat : '@' ∉ i) (haddh : '#' ∉ ho) (haddq : '?' ∉ ho)
    (hph : '#' ∉ po) (hpq : '?' ∉ po) (hpc : ':' ∉ po)
    (hQh : '#' ∉ Q) (hlpct : '%' ∉ l) (hlne : l ≠ []) :
    parse_vless_url (String.mk ("vless://".data ++ (i ++ '@' ::
        ((ho ++ ':' :: po) ++ '?' :: (Q ++ '#' :: l)))))
      = some {
          v := some "2"
          ps := some (String.mk l)
          add := some (String.mk ho)
          port := some (String.mk po)
          id := some (String.mk i)
          aid := some "0"
          scy := some "auto"
          net := some (getFirst (parseQs Q) "type" "tcp")
          type := some "none"
          host := some (getFirst (parseQs Q) "host" "")
          path := some (getFirst (parseQs Q) "path" "")
          tls := some (getFirst (parseQs Q) "security" "tls")
          sni := some (getFirst (parseQs Q) "sni" "")
          alpn := some ""
          fp := some (getFirst (parseQs Q) "fp" "chrome")
          pbk := some (getFirst (parseQs Q) "pbk" "")
          sid := some (getFirst (parseQs Q) "sid" "")
          spx := some (getFirst (parseQs Q) "spx" "")
          flow := findVal (parseQs Q) "flow"
          encryption := findVal (parseQs Q) "encryption"
          allowInsecure := findVal (parseQs Q) "allowInsecure"
          configType := some (classifyConfig (getFirst (parseQs Q) "type" "tcp")
            (getFirst (parseQs Q) "security" "tls") (getFirst (parseQs Q) "pbk" "")) } := by
  have hsplit1 : splitFirstChar '@' (i ++ '@' :: (ho ++ ':' :: (po ++ '?' :: (Q ++ '#' :: l))))
      = some (i, ho ++ ':' :: (po ++ '?' :: (Q ++ '#' :: l))) := by
    simpa [List.append_assoc] using
      splitFirstChar_append (l := i) (r := (ho ++ ':' :: po) ++ '?' :: (Q ++ '#' :: l)) hidat
  have hnohash : '#' ∉ (ho ++ ':' :: po) ++ '?' :: Q := by
    simp only [List.mem_append, List.mem_cons, not_or]
    exact ⟨⟨haddh, by decide, hph⟩, by decide, hQh⟩
  have hsplit2 : splitFirstChar '#' (ho ++ ':' :: (po ++ '?' :: (Q ++ '#' :: l)))
      = some ((ho ++ ':' :: po) ++ '?' :: Q, l) := by
    have h2 := splitFirstChar_append (l := (ho ++ ':' :: po) ++ '?' :: Q) (r := l) hnohash
    rw [show ((ho ++ ':' :: po) ++ '?' :: Q) ++ '#' :: l
        = ho ++ ':' :: (po ++ '?' :: (Q ++ '#' :: l)) by simp [List.append_assoc]] at h2
    exact h2
  have hnoq : '?' ∉ ho ++ ':' :: po := by
    simp only [List.mem_append, List.mem_cons, not_or]
    exact ⟨haddq, by decide, hpq⟩
  have hsplit3 : splitFirstChar '?' (ho ++ ':' :: (po ++ '?' :: Q))
      = some (ho ++ ':' :: po, Q) := by
    have h2 := splitFirstChar_append (l := ho ++ ':' :: po) (r := Q) hnoq
    rw [show (ho ++ ':' :: po) ++ '?' :: Q = ho ++ ':' :: (po ++ '?' :: Q) by
      simp [List.append_assoc]] at h2
    exact h2
  have hsplit4 : rsplitLastChar ':' (ho ++ ':' :: po) = some (ho, po) := rsplitLastChar_append hpc
  have hcomment : pyUnquote (String.mk l) = String.mk l := pyUnquote_no_pct (by simpa using hlpct)
  have hlne2 : String.mk l ≠ "" := fun e => hlne (str_eq_empty_iff.mp e)
  unfold parse_vless_url
  simp only [show (String.mk ("vless://".data ++ (i ++ '@' ::
      ((ho ++ ':' :: po) ++ '?' :: (Q ++ '#' :: l))))).data
      = "vless://".data ++ (i ++ '@' :: ((ho ++ ':' :: po) ++ '?' :: (Q ++ '#' :: l))) from rfl]
  simp [hasPrefixL_nil, hasPrefixL_cons, drop8_vless, hsplit1, hsplit2, hsplit3, hsplit4,
    hcomment, hlne2]

theorem data_mk (l : List Char) : (String.mk l).data = l := rfl

theorem decode_encode_wellformed {x : Config} (wf : WellFormed x)
    (hopt : OptUnsetOrNonEmpty x) (hencset : x.encryption ≠ none) :
    parse_vless_url (json_to_vless_url x) = some x := by
  obtain ⟨hoptf, hopte, hopti⟩ := hopt
  have henc2 : ∃ e, x.encryption = some e ∧ e ≠ "" ∧ asciiStr e := by
    cases hxe : x.encryption with
    | none => exact absurd hxe hencset
    | some e =>
      have ha := wf.henc
      rw [hxe] at ha
      exact ⟨e, rfl, fun he => hopte (by rw [hxe, he]), ha⟩
  have hQparse : parseQs (urlencodeQS (buildParams x)) = buildParams x :=
    parseQs_urlencodeQS _ (buildParams_good wf henc2)
  have hQh : '#' ∉ urlencodeQS (buildParams x) := fun hc => by
    rcases mem_urlencodeQS hc with hq | hq | hq | hq | hq <;> exact absurd hq (by decide)
  obtain ⟨i, hid, hidat⟩ := wf.hid
  obtain ⟨ho, hadd, haddh, haddq⟩ := wf.hadd
  obtain ⟨po, hport, hph, hpq, hpc⟩ := wf.hport
  obtain ⟨l, hps, hlne, hlpct⟩ := wf.hps
  obtain ⟨n, hnet, hnne, hna⟩ := wf.hnet
  obtain ⟨t, htls, htne, hta⟩ := wf.htls
  obtain ⟨sv, hsni, hsva⟩ := wf.hsni
  obtain ⟨pv, hpbk, hpva⟩ := wf.hpbk
  obtain ⟨dv, hsid, hdva⟩ := wf.hsid
  obtain ⟨av, hpath, hava⟩ := wf.hpath
  obtain ⟨wv, hspx, hwva⟩ := wf.hspx
  obtain ⟨hv, hhost, hhva⟩ := wf.hhost
  obtain ⟨e, hencx, hene, hea⟩ := henc2
  have htag := wf.htag
  rw [hnet, htls, hpbk] at htag
  simp only [Option.getD_some] at htag
  have hfp := wf.hfp
  have henc_eq : json_to_vless_url x
      = String.mk ("vless://".data ++ (i.data ++ '@' ::
          ((ho.data ++ ':' :: po.data) ++ '?' ::
            (urlencodeQS (buildParams x) ++ '#' :: l.data)))) := by
    unfold json_to_vless_url vlessCore
    rw [hps, hid, hadd, hport]
    simp only [Option.getD_some]
    rw [if_neg hlne]
    apply String.ext
    simp [String.data_append, data_mk]
  rw [henc_eq]
  rw [parse_assembled i.data ho.data po.data (urlencodeQS (buildParams x)) l.data
    hidat haddh haddq hph hpq hpc hQh hlpct
    (fun hnil => hlne (str_eq_empty_iff.mpr hnil))]
  rw [hQparse]
  simp only [getFirst, buildParams_type, buildParams_encryption, buildParams_security,
    buildParams_fp, buildParams_sni, buildParams_pbk, buildParams_sid, buildParams_flow,
    buildParams_path, buildParams_spx, buildParams_host, buildParams_allowInsecure,
    hnet, htls, hsni, hpbk, hsid, hpath, hspx, hhost, hencx, Option.getD_some,
    getD_truthy, mk_data_eq]
  rw [truthyStr_eq_self hoptf, truthyStr_eq_self hopti]
  obtain ⟨xv, xps, xadd, xport, xid, xaid, xscy, xnet, xtyp, xhost, xpath, xtls, xsni, xalpn,
    xfp, xpbk, xsid, xspx, xflow, xenc, xins, xct⟩ := x
  have hv : xv = some "2" := wf.hv
  have haid : xaid = some "0" := wf.haid
  have hscy : xscy = some "auto" := wf.hscy
  have htyp : xtyp = some "none" := wf.htyp
  have halpn : xalpn = some "" := wf.halpn
  subst hv haid hscy htyp halpn hid hadd hport hps hnet htls hsni hpbk hsid hpath hspx hhost
    hencx htag
  by_cases hr : (some (classifyConfig n t pv) : Option String) = some "reality"
  · rw [if_pos hr] at hfp
    obtain ⟨f, hf, hfne, hfa⟩ := hfp
    subst hf
    rw [if_pos hr]
    rfl
  · rw [if_neg hr] at hfp
    subst hfp
    rw [if_neg hr]
    rfl

/-! # Claim theorems -/

/-! ## C1: codec round trip -/

/-- Concrete well-formed config with the encryption key present. -/
def c1ex : Config :=
  { v := some "2", ps := some "lbl", add := some "h", port := some "443", id := some "u",
    aid := some "0", scy := some "auto", net := some "tcp", type := some "none",
    host := some "", path := some "", tls := some "tls", sni := some "", alpn := some "",
    fp := some "chrome", pbk := some "", sid := some "", spx := some "",
    flow := none, encryption := some "none", allowInsecure := none,
    configType := some "other" }

/-- The same config with the encryption key absent, as the claim's
"fully unset" allows. -/
def c1bad : Config := { c1ex with encryption := none }

theorem c1ex_wellformed : WellFormed c1ex :=
  ⟨rfl, rfl, rfl, rfl, rfl,
   ⟨"u", rfl, by decide⟩, ⟨"h", rfl, by decide, by decide⟩,
   ⟨"443", rfl, by decide, by decide, by decide⟩,
   ⟨"lbl", rfl, by decide, by decide⟩,
   ⟨"tcp", rfl, by decide, by decide⟩, ⟨"tls", rfl, by decide, by decide⟩,
   ⟨"", rfl, by decide⟩, ⟨"", rfl, by decide⟩, ⟨"", rfl, by decide⟩, ⟨"", rfl, by decide⟩,
   ⟨"", rfl, by decide⟩, ⟨"", rfl, by decide⟩,
   by decide, by decide, by decide,
   by rw [if_neg (by decide)]; decide,
   by decide⟩

theorem c1bad_wellformed : WellFormed c1bad :=
  ⟨rfl, rfl, rfl, rfl, rfl,
   ⟨"u", rfl, by decide⟩, ⟨"h", rfl, by decide, by decide⟩,
   ⟨"443", rfl, by decide, by decide, by decide⟩,
   ⟨"lbl", rfl, by decide, by decide⟩,
   ⟨"tcp", rfl, by decide, by decide⟩, ⟨"tls", rfl, by decide, by decide⟩,
   ⟨"", rfl, by decide⟩, ⟨"", rfl, by decide⟩, ⟨"", rfl, by decide⟩, ⟨"", rfl, by decide⟩,
   ⟨"", rfl, by decide⟩, ⟨"", rfl, by decide⟩,
   by decide, by decide, by decide,
   by rw [if_neg (by decide)]; decide,
   by decide⟩

/-- C1, counterexample to the claim as stated: `c1bad` is a well-formed
ProxyLink whose optional fields are each fully unset or non-empty — its
encryption field is fully unset — yet decoding its encoding does not
reproduce it: the decoder materialises `encryption = "none"` because the
encoder always emits `encryption` with default `"none"` and the decoder
copies the parameter back only when present, so the unset state is lost. -/
theorem C1_counterexample :
    WellFormed c1bad ∧ OptUnsetOrNonEmpty c1bad ∧ c1bad.encryption = none
      ∧ parse_vless_url (json_to_vless_url c1bad) ≠ some c1bad :=
  ⟨c1bad_wellformed, ⟨by decide, by decide, by decide⟩, rfl, by decide⟩

/-- C1 (amended): for every well-formed ProxyLink whose optional fields
are each fully unset or set to a non-empty value and whose encryption
field is set (non-empty), decoding the encoding reproduces the record in
every field, including the profile tag. -/
theorem C1_decode_encode_roundtrip {x : Config} (wf : WellFormed x)
    (hopt : OptUnsetOrNonEmpty x) (hencset : x.encryption ≠ none) :
    parse_vless_url (json_to_vless_url x) = some x :=
  decode_encode_wellformed wf hopt hencset

/-- C1, witness: the amended round trip holds at the concrete config
`c1ex`. -/
theorem C1_witness : parse_vless_url (json_to_vless_url c1ex) = some c1ex :=
  C1_decode_encode_roundtrip c1ex_wellformed ⟨by decide, by decide, by decide⟩ (by decide)

/-! ## C2: profile classifier -/

theorem parse_vless_url_shape {url : String} {cfg : Config}
    (h : parse_vless_url url = some cfg) :
    ∃ n t p, cfg.net = some n ∧ cfg.tls = some t ∧ cfg.pbk = some p
      ∧ cfg.configType = some (classifyConfig n t p) := by
  unfold parse_vless_url at h
  dsimp only at h
  split at h
  · exact absurd h (by simp)
  · split at h
    · exact absurd h (by simp)
    · rw [Option.some.injEq] at h
      subst h
      exact ⟨_, _, _, rfl, rfl, rfl, rfl⟩

theorem classify_websocket_iff (n t p : String) :
    classifyConfig n t p = "websocket" ↔ n = "ws" := by
  unfold classifyConfig
  by_cases h1 : n = "ws"
  · simp [h1]
  · by_cases h2 : t = "reality" ∧ p ≠ "" <;> simp [h1, h2]

theorem classify_reality_iff (n t p : String) :
    classifyConfig n t p = "reality" ↔ (n ≠ "ws" ∧ t = "reality" ∧ p ≠ "") := by
  unfold classifyConfig
  by_cases h1 : n = "ws"
  · simp [h1]
  · by_cases h2 : t = "reality" ∧ p ≠ "" <;> simp [h1, h2]

theorem classify_other_iff (n t p : String) :
    classifyConfig n t p = "other" ↔ (n ≠ "ws" ∧ ¬(t = "reality" ∧ p ≠ "")) := by
  unfold classifyConfig
  by_cases h1 : n = "ws"
  · simp [h1]
  · by_cases h2 : t = "reality" ∧ p ≠ "" <;> simp [h1, h2]

/-- C2: on every record produced by the decoder, the profile tag is
`websocket` iff the network type is `ws`; `reality` iff the network type
is not `ws`, the security type is `reality` and the public key is
non-empty (so WebSocket wins when both conditions hold); and `other`
exactly otherwise. -/
theorem C2_profile_classifier {url : String} {cfg : Config}
    (h : parse_vless_url url = some cfg) :
    (cfg.configType = some "websocket" ↔ cfg.net = some "ws")
    ∧ (cfg.configType = some "reality"
        ↔ cfg.net ≠ some "ws" ∧ cfg.tls = some "reality" ∧ cfg.pbk ≠ some "")
    ∧ (cfg.configType = some "other"
        ↔ cfg.net ≠ some "ws" ∧ ¬(cfg.tls = some "reality" ∧ cfg.pbk ≠ some "")) := by
  obtain ⟨n, t, p, hn, ht, hp, hc⟩ := parse_vless_url_shape h
  rw [hn, ht, hp, hc]
  simp only [Option.some.injEq, ne_eq]
  refine ⟨?_, ?_, ?_⟩
  · simpa using classify_websocket_iff n t p
  · simpa using classify_reality_iff n t p
  · simpa using classify_other_iff n t p

/-- The record `parse_vless_url` produces for
`vless://u@h:443?security=reality&pbk=K#l`. -/
def vlessRealityCfg : Config :=
  { v := some "2", ps := some "l", add := some "h", port := some "443", id := some "u",
    aid := some "0", scy := some "auto", net := some "tcp", type := some "none",
    host := some "", path := some "", tls := some "reality", sni := some "", alpn := some "",
    fp := some "chrome", pbk := some "K", sid := some "", spx := some "",
    flow := none, encryption := none, allowInsecure := none, configType := some "reality" }

/-- C2, witness: the classifier facts at a concrete parsed reality
record where `pbk` is present and the network type is `tcp`. -/
theorem C2_witness :
    ((vlessRealityCfg.configType = some "websocket") ↔ vlessRealityCfg.net = some "ws")
    ∧ (vlessRealityCfg.configType = some "reality"
        ↔ vlessRealityCfg.net ≠ some "ws" ∧ vlessRealityCfg.tls = some "reality"
          ∧ vlessRealityCfg.pbk ≠ some "")
    ∧ (vlessRealityCfg.configType = some "other"
        ↔ vlessRealityCfg.net ≠ some "ws"
          ∧ ¬(vlessRealityCfg.tls = some "reality" ∧ vlessRealityCfg.pbk ≠ some "")) :=
  @C2_profile_classifier "vless://u@h:443?security=reality&pbk=K#l" vlessRealityCfg (by decide)

/-! ## C3: fan-out cardinality -/

/-- C3: for a single base link, the generator produces `len(sniList)`
outputs when the profile tag is `reality` or `websocket`, exactly one
output when the tag is `other`, and zero outputs when the tag is
fan-out-eligible and the SNI list is empty. -/
theorem C3_fanout_cardinality (cfg : Config) (sni_list : List String) :
    ((cfg.configType = some "reality" ∨ cfg.configType = some "websocket")
      → (generate_multi_configs [cfg] sni_list).length = sni_list.length)
    ∧ (cfg.configType = some "other" → (generate_multi_configs [cfg] sni_list).length = 1)
    ∧ ((cfg.configType = some "reality" ∨ cfg.configType = some "websocket")
      → sni_list = [] → (generate_multi_configs [cfg] sni_list).length = 0) := by
  refine ⟨?_, ?_, ?_⟩
  · intro htag
    rcases htag with htag | htag <;> simp [generate_multi_configs, htag]
  · intro htag
    simp [generate_multi_configs, htag]
  · intro htag hnil
    subst hnil
    rcases htag with htag | htag <;> simp [generate_multi_configs, htag]

/-- A reality-tagged base config for the fan-out witnesses. -/
def fanoutRealityCfg : Config := { vlessRealityCfg with ps := some "p" }

/-- A websocket-tagged base config for the fan-out witnesses. -/
def fanoutWsCfg : Config :=
  { vlessRealityCfg with net := some "ws", configType := some "websocket" }

/-- An other-tagged base config for the fan-out witnesses. -/
def fanoutOtherCfg : Config :=
  { vlessRealityCfg with tls := some "tls", pbk := some "", configType := some "other" }

/-- C3, witness: two SNI candidates yield two outputs for a reality
link, one output for an other link, and an empty SNI list yields zero
outputs for a websocket link. -/
theorem C3_witness :
    (generate_multi_configs [fanoutRealityCfg] ["a", "b"]).length = 2
    ∧ (generate_multi_configs [fanoutOtherCfg] ["a", "b"]).length = 1
    ∧ (generate_multi_configs [fanoutWsCfg] []).length = 0 :=
  ⟨by
    have h := (C3_fanout_cardinality fanoutRealityCfg ["a", "b"]).1 (Or.inl rfl)
    simpa using h,
   (C3_fanout_cardinality fanoutOtherCfg ["a", "b"]).2.1 rfl,
   (C3_fanout_cardinality fanoutWsCfg []).2.2 (Or.inr rfl) rfl⟩

/-! ## C4: fan-out frame property -/

/-- C4: for a fan-out-eligible base link, the generator emits one output
per SNI candidate in list order, each the encoding of a record that
differs from the base record exactly in `sni` (the candidate) and `ps`
(the label with ` - sni:{candidate}` appended); every other field is
unchanged. -/
theorem C4_fanout_frame (cfg : Config) (lps : String) (sni_list : List String)
    (hps : cfg.ps = some lps)
    (htag : cfg.configType = some "reality" ∨ cfg.configType = some "websocket") :
    generate_multi_configs [cfg] sni_list
      = sni_list.map (fun sni => json_to_vless_url (fanoutConfig cfg sni))
    ∧ ∀ sni, (fanoutConfig cfg sni).sni = some sni
      ∧ (fanoutConfig cfg sni).ps = some (lps ++ " - sni:" ++ sni)
      ∧ (fanoutConfig cfg sni).v = cfg.v ∧ (fanoutConfig cfg sni).add = cfg.add
      ∧ (fanoutConfig cfg sni).port = cfg.port ∧ (fanoutConfig cfg sni).id = cfg.id
      ∧ (fanoutConfig cfg sni).aid = cfg.aid ∧ (fanoutConfig cfg sni).scy = cfg.scy
      ∧ (fanoutConfig cfg sni).net = cfg.net ∧ (fanoutConfig cfg sni).type = cfg.type
      ∧ (fanoutConfig cfg sni).host = cfg.host ∧ (fanoutConfig cfg sni).path = cfg.path
      ∧ (fanoutConfig cfg sni).tls = cfg.tls ∧ (fanoutConfig cfg sni).alpn = cfg.alpn
      ∧ (fanoutConfig cfg sni).fp = cfg.fp ∧ (fanoutConfig cfg sni).pbk = cfg.pbk
      ∧ (fanoutConfig cfg sni).sid = cfg.sid ∧ (fanoutConfig cfg sni).spx = cfg.spx
      ∧ (fanoutConfig cfg sni).flow = cfg.flow
      ∧ (fanoutConfig cfg sni).encryption = cfg.encryption
      ∧ (fanoutConfig cfg sni).allowInsecure = cfg.allowInsecure
      ∧ (fanoutConfig cfg sni).configType = cfg.configType := by
  constructor
  · rcases htag with htag | htag <;> simp [generate_multi_configs, htag]
  · intro sni
    refine ⟨rfl, ?_, rfl, rfl, rfl, rfl, rfl, rfl, rfl, rfl, rfl, rfl, rfl, rfl, rfl, rfl,
      rfl, rfl, rfl, rfl, rfl, rfl⟩
    simp [fanoutConfig, hps]

/-- C4, witness: the frame property at a concrete reality link and a
two-element SNI list. -/
theorem C4_witness :
    generate_multi_configs [fanoutRealityCfg] ["a", "b"]
      = ["a", "b"].map (fun sni => json_to_vless_url (fanoutConfig fanoutRealityCfg sni))
    ∧ ∀ sni, (fanoutConfig fanoutRealityCfg sni).sni = some sni
      ∧ (fanoutConfig fanoutRealityCfg sni).ps = some ("p" ++ " - sni:" ++ sni)
      ∧ (fanoutConfig fanoutRealityCfg sni).v = fanoutRealityCfg.v
      ∧ (fanoutConfig fanoutRealityCfg sni).add = fanoutRealityCfg.add
      ∧ (fanoutConfig fanoutRealityCfg sni).port = fanoutRealityCfg.port
      ∧ (fanoutConfig fanoutRealityCfg sni).id = fanoutRealityCfg.id
      ∧ (fanoutConfig fanoutRealityCfg sni).aid = fanoutRealityCfg.aid
      ∧ (fanoutConfig fanoutRealityCfg sni).scy = fanoutRealityCfg.scy
      ∧ (fanoutConfig fanoutRealityCfg sni).net = fanoutRealityCfg.net
      ∧ (fanoutConfig fanoutRealityCfg sni).type = fanoutRealityCfg.type
      ∧ (fanoutConfig fanoutRealityCfg sni).host = fanoutRealityCfg.host
      ∧ (fanoutConfig fanoutRealityCfg sni).path = fanoutRealityCfg.path
      ∧ (fanoutConfig fanoutRealityCfg sni).tls = fanoutRealityCfg.tls
      ∧ (fanoutConfig fanoutRealityCfg sni).alpn = fanoutRealityCfg.alpn
      ∧ (fanoutConfig fanoutRealityCfg sni).fp = fanoutRealityCfg.fp
      ∧ (fanoutConfig fanoutRealityCfg sni).pbk = fanoutRealityCfg.pbk
      ∧ (fanoutConfig fanoutRealityCfg sni).sid = fanoutRealityCfg.sid
      ∧ (fanoutConfig fanoutRealityCfg sni).spx = fanoutRealityCfg.spx
      ∧ (fanoutConfig fanoutRealityCfg sni).flow = fanoutRealityCfg.flow
      ∧ (fanoutConfig fanoutRealityCfg sni).encryption = fanoutRealityCfg.encryption
      ∧ (fanoutConfig fanoutRealityCfg sni).allowInsecure = fanoutRealityCfg.allowInsecure
      ∧ (fanoutConfig fanoutRealityCfg sni).configType = fanoutRealityCfg.configType :=
  C4_fanout_frame fanoutRealityCfg "p" ["a", "b"] rfl (Or.inl rfl)

/-! ## C6: encoder query-parameter set -/

theorem truthyStr_isSome_iff (v : Option String) :
    (truthyStr v).isSome = true ↔ v.getD "" ≠ "" := by
  cases v with
  | none => simp [truthyStr_none]
  | some s =>
    rw [truthyStr_some]
    by_cases hs : s = "" <;> simp [hs]

/-- C6: the encoder's query dict always binds `type`, `encryption`
(defaulting to `"none"`) and `security`; binds `fp` iff the profile tag
is `reality`; binds each optional parameter iff the corresponding field
is non-empty, and never binds an optional parameter to the empty
string; and the label fragment is appended exactly when the label is
non-empty. -/
theorem C6_encoder_query_params (cfg : Config) :
    findVal (buildParams cfg) "type" = some (cfg.net.getD "tcp")
    ∧ findVal (buildParams cfg) "encryption" = some (cfg.encryption.getD "none")
    ∧ findVal (buildParams cfg) "security" = some (cfg.tls.getD "tls")
    ∧ ((findVal (buildParams cfg) "fp").isSome = true ↔ cfg.configType = some "reality")
    ∧ ((findVal (buildParams cfg) "sni").isSome = true ↔ cfg.sni.getD "" ≠ "")
    ∧ ((findVal (buildParams cfg) "pbk").isSome = true ↔ cfg.pbk.getD "" ≠ "")
    ∧ ((findVal (buildParams cfg) "sid").isSome = true ↔ cfg.sid.getD "" ≠ "")
    ∧ ((findVal (buildParams cfg) "flow").isSome = true ↔ cfg.flow.getD "" ≠ "")
    ∧ ((findVal (buildParams cfg) "path").isSome = true ↔ cfg.path.getD "" ≠ "")
    ∧ ((findVal (buildParams cfg) "spx").isSome = true ↔ cfg.spx.getD "" ≠ "")
    ∧ ((findVal (buildParams cfg) "host").isSome = true ↔ cfg.host.getD "" ≠ "")
    ∧ ((findVal (buildParams cfg) "allowInsecure").isSome = true
        ↔ cfg.allowInsecure.getD "" ≠ "")
    ∧ (∀ k s, findVal (buildParams cfg) k = some s
        → (k = "sni" ∨ k = "pbk" ∨ k = "sid" ∨ k = "flow" ∨ k = "path" ∨ k = "spx"
            ∨ k = "host" ∨ k = "allowInsecure") → s ≠ "")
    ∧ (cfg.ps.getD "" ≠ "" → json_to_vless_url cfg = vlessCore cfg ++ "#" ++ cfg.ps.getD "")
    ∧ (cfg.ps.getD "" = "" → json_to_vless_url cfg = vlessCore cfg) := by
  refine ⟨buildParams_type cfg, buildParams_encryption cfg, buildParams_security cfg,
    ?_, ?_, ?_, ?_, ?_, ?_, ?_, ?_, ?_, ?_, ?_, ?_⟩
  · rw [buildParams_fp]
    by_cases hr : cfg.configType = some "reality" <;> simp [hr]
  · rw [buildParams_sni]; exact truthyStr_isSome_iff _
  · rw [buildParams_pbk]; exact truthyStr_isSome_iff _
  · rw [buildParams_sid]; exact truthyStr_isSome_iff _
  · rw [buildParams_flow]; exact truthyStr_isSome_iff _
  · rw [buildParams_path]; exact truthyStr_isSome_iff _
  · rw [buildParams_spx]; exact truthyStr_isSome_iff _
  · rw [buildParams_host]; exact truthyStr_isSome_iff _
  · rw [buildParams_allowInsecure]; exact truthyStr_isSome_iff _
  · intro k s hfind hk
    rcases hk with hk | hk | hk | hk | hk | hk | hk | hk <;> subst hk
    · rw [buildParams_sni] at hfind; exact (truthyStr_eq_some hfind).2
    · rw [buildParams_pbk] at hfind; exact (truthyStr_eq_some hfind).2
    · rw [buildParams_sid] at hfind; exact (truthyStr_eq_some hfind).2
    · rw [buildParams_flow] at hfind; exact (truthyStr_eq_some hfind).2
    · rw [buildParams_path] at hfind; exact (truthyStr_eq_some hfind).2
    · rw [buildParams_spx] at hfind; exact (truthyStr_eq_some hfind).2
    · rw [buildParams_host] at hfind; exact (truthyStr_eq_some hfind).2
    · rw [buildParams_allowInsecure] at hfind; exact (truthyStr_eq_some hfind).2
  · intro h
    unfold json_to_vless_url
    rw [if_neg h]
  · intro h
    unfold json_to_vless_url
    rw [if_pos h]

/-- C6, witness: the instantiated statement at the concrete reality
record (where the fingerprint parameter must be present). -/
theorem C6_witness :
    findVal (buildParams vlessRealityCfg) "type" = some (vlessRealityCfg.net.getD "tcp")
    ∧ findVal (buildParams vlessRealityCfg) "encryption"
        = some (vlessRealityCfg.encryption.getD "none")
    ∧ findVal (buildParams vlessRealityCfg) "security"
        = some (vlessRealityCfg.tls.getD "tls")
    ∧ ((findVal (buildParams vlessRealityCfg) "fp").isSome = true
        ↔ vlessRealityCfg.configType = some "reality")
    ∧ ((findVal (buildParams vlessRealityCfg) "sni").isSome = true
        ↔ vlessRealityCfg.sni.getD "" ≠ "")
    ∧ ((findVal (buildParams vlessRealityCfg) "pbk").isSome = true
        ↔ vlessRealityCfg.pbk.getD "" ≠ "")
    ∧ ((findVal (buildParams vlessRealityCfg) "sid").isSome = true
        ↔ vlessRealityCfg.sid.getD "" ≠ "")
    ∧ ((findVal (buildParams vlessRealityCfg) "flow").isSome = true
        ↔ vlessRealityCfg.flow.getD "" ≠ "")
    ∧ ((findVal (buildParams vlessRealityCfg) "path").isSome = true
        ↔ vlessRealityCfg.path.getD "" ≠ "")
    ∧ ((findVal (buildParams vlessRealityCfg) "spx").isSome = true
        ↔ vlessRealityCfg.spx.getD "" ≠ "")
    ∧ ((findVal (buildParams vlessRealityCfg) "host").isSome = true
        ↔ vlessRealityCfg.host.getD "" ≠ "")
    ∧ ((findVal (buildParams vlessRealityCfg) "allowInsecure").isSome = true
        ↔ vlessRealityCfg.allowInsecure.getD "" ≠ "")
    ∧ (∀ k s, findVal (buildParams vlessRealityCfg) k = some s
        → (k = "sni" ∨ k = "pbk" ∨ k = "sid" ∨ k = "flow" ∨ k = "path" ∨ k = "spx"
            ∨ k = "host" ∨ k = "allowInsecure") → s ≠ "")
    ∧ (vlessRealityCfg.ps.getD "" ≠ ""
        → json_to_vless_url vlessRealityCfg
          = vlessCore vlessRealityCfg ++ "#" ++ vlessRealityCfg.ps.getD "")
    ∧ (vlessRealityCfg.ps.getD "" = ""
        → json_to_vless_url vlessRealityCfg = vlessCore vlessRealityCfg) :=
  C6_encoder_query_params vlessRealityCfg

/-! ## C5: per-line failure policy -/

/-- C5: a line with no `@`, or a `vless://` line that fails to parse for
any structural reason, yields `None` and is skipped by the
`get_base_configs` loop without affecting the rest of the batch; in a
concrete batch mixing one malformed `vless://` line (no `@`) with one
well-formed line, the result is exactly the well-formed line's record. -/
theorem C5_parse_failure_skips_line :
    (∀ s : String, '@' ∉ s.data → parse_vless_url s = none)
    ∧ (∀ (line : String) (rest : List String),
        hasPrefixL "vless://".data line.data = true → parse_vless_url line = none
        → processConfigLines (line :: rest) = processConfigLines rest)
    ∧ parse_vless_url "vless://nobody-here" = none
    ∧ parse_vless_url "vless://u@hostonly" = none
    ∧ processConfigLines ["vless://nobody-here", "vless://u@h:443?security=reality&pbk=K#l"]
        = [vlessRealityCfg] := by
  refine ⟨?_, ?_, by decide, by decide, by decide⟩
  · intro s hat
    unfold parse_vless_url
    dsimp only
    have h2 : '@' ∉ (if hasPrefixL "vless://".data s.data = true
        then s.data.drop 8 else s.data) := by
      split
      · exact fun hm => hat (List.mem_of_mem_drop hm)
      · exact hat
    rw [splitFirstChar_of_not_mem h2]
  · intro line rest hpre hparse
    simp [processConfigLines, hpre, hparse]

/-- C5, witness: a line without `@` fails to parse, and the concrete
malformed line is skipped leaving exactly the good line's result. -/
theorem C5_witness :
    parse_vless_url "no-at-sign-here" = none
    ∧ processConfigLines ["vless://nobody-here", "vless://u@h:443?security=reality&pbk=K#l"]
        = processConfigLines ["vless://u@h:443?security=reality&pbk=K#l"] :=
  ⟨C5_parse_failure_skips_line.1 "no-at-sign-here" (by decide),
   C5_parse_failure_skips_line.2.1 "vless://nobody-here" _ (by decide) (by decide)⟩

/-! ## C8: host and port invariants -/

theorem splitFirstChar_not_mem_left {sep : Char} :
    ∀ {l a b : List Char}, splitFirstChar sep l = some (a, b) → sep ∉ a := by
  intro l
  induction l with
  | nil => intro a b h; simp [splitFirstChar] at h
  | cons c rest ih =>
    intro a b h
    unfold splitFirstChar at h
    split at h
    · rename_i hc
      rw [Option.some.injEq] at h
      rw [show a = ([] : List Char) from (Prod.mk.injEq .. ▸ h).1.symm]
      simp
    · rename_i hc
      rw [Option.map_eq_some'] at h
      obtain ⟨p, hp, heq⟩ := h
      have ha : a = c :: p.1 := (Prod.mk.injEq .. ▸ heq).1.symm
      subst ha
      intro hmem
      rcases List.mem_cons.mp hmem with hmem | hmem
      · exact hc hmem.symm
      · exact ih hp hmem

theorem rsplitLastChar_no_sep_right {sep : Char} {l a b : List Char}
    (h : rsplitLastChar sep l = some (a, b)) : sep ∉ b := by
  unfold rsplitLastChar at h
  rw [Option.map_eq_some'] at h
  obtain ⟨p, hp, heq⟩ := h
  have hb : b = p.1.reverse := (Prod.mk.injEq .. ▸ heq).2.symm
  subst hb
  intro hmem
  exact splitFirstChar_not_mem_left hp (List.mem_reverse.mp hmem)

/-- The record `parse_vless_url` produces for `vless://u@a:b:443`. -/
def colonHostCfg : Config :=
  { v := some "2", ps := some "base-config", add := some "a:b", port := some "443",
    id := some "u", aid := some "0", scy := some "auto", net := some "tcp",
    type := some "none", host := some "", path := some "", tls := some "tls",
    sni := some "", alpn := some "", fp := some "chrome", pbk := some "", sid := some "",
    spx := some "", flow := none, encryption := none, allowInsecure := none,
    configType := some "other" }

/-- C8, counterexample to the claim as stated: `vless://u@:443` decodes
successfully, yet its host field is the empty string — `rsplit(':', 1)`
happily returns an empty host, so "host ... non-empty" fails. -/
theorem C8_counterexample :
    (parse_vless_url "vless://u@:443").isSome = true
    ∧ (parse_vless_url "vless://u@:443").map Config.add = some (some "") :=
  ⟨by decide, by decide⟩

/-- C8 (amended): every successfully URI-decoded record carries host and
port keys (possibly empty); the port never contains a colon because the
separator is the rightmost colon (so hosts containing colons are
supported); a server segment without a colon fails to parse; and
`vless://u@a:b:443` decodes with host `a:b` and port `443`. -/
theorem C8_host_port {url : String} {cfg : Config} (h : parse_vless_url url = some cfg) :
    cfg.add.isSome = true ∧ cfg.port.isSome = true
    ∧ (∀ p, cfg.port = some p → ':' ∉ p.data)
    ∧ parse_vless_url "vless://u@hostonly" = none
    ∧ (parse_vless_url "vless://u@a:b:443").map (fun c => (c.add, c.port))
        = some (some "a:b", some "443") := by
  refine ⟨?_, ?_, ?_, by decide, by decide⟩ <;>
  · unfold parse_vless_url at h
    dsimp only at h
    split at h
    · exact absurd h (by simp)
    · split at h
      · exact absurd h (by simp)
      · rename_i host port heq
        rw [Option.some.injEq] at h
        subst h
        first
        | rfl
        | (intro p hp
           rw [Option.some.injEq] at hp
           subst hp
           exact fun hm => rsplitLastChar_no_sep_right heq hm)

/-- C8, witness: the amended statement at the concrete colon-host URL. -/
theorem C8_witness :
    colonHostCfg.add.isSome = true ∧ colonHostCfg.port.isSome = true
    ∧ (∀ p, colonHostCfg.port = some p → ':' ∉ p.data)
    ∧ parse_vless_url "vless://u@hostonly" = none
    ∧ (parse_vless_url "vless://u@a:b:443").map (fun c => (c.add, c.port))
        = some (some "a:b", some "443") :=
  @C8_host_port "vless://u@a:b:443" colonHostCfg (by decide)

/-! ## C10: raw-JSON lines and the fan-out -/

theorem char_isValidChar (c : Char) : Nat.isValidChar c.toNat := c.valid

theorem utf8DecodeLoop_lead_ascii {b a : Nat} (h : utf8Lead b = .ascii a) (rest : List Nat) :
    utf8DecodeLoop (b :: rest) none = (utf8DecodeLoop rest none).map (fun l => a :: l) := by
  simp only [utf8DecodeLoop, h]

theorem utf8DecodeLoop_lead_multi {b k a m : Nat} (h : utf8Lead b = .multi k a m)
    (rest : List Nat) :
    utf8DecodeLoop (b :: rest) none = utf8DecodeLoop rest (some (k, a, m)) := by
  simp only [utf8DecodeLoop, h]

theorem utf8DecodeLoop_cont (b k a m : Nat) (h1 : 0x80 ≤ b) (h2 : b < 0xC0)
    (hk : ¬k = 0) (rest : List Nat) :
    utf8DecodeLoop (b :: rest) (some (k, a, m))
      = utf8DecodeLoop rest (some (k - 1, a * 64 + (b - 0x80), m)) := by
  simp only [utf8DecodeLoop]
  rw [if_pos ⟨h1, h2⟩, if_neg hk]

theorem utf8DecodeLoop_final (b a m : Nat) (h1 : 0x80 ≤ b) (h2 : b < 0xC0)
    (h3 : ¬(a * 64 + (b - 0x80) < m ∨
      (0xD800 ≤ a * 64 + (b - 0x80) ∧ a * 64 + (b - 0x80) < 0xE000) ∨
      0x110000 ≤ a * 64 + (b - 0x80))) (rest : List Nat) :
    utf8DecodeLoop (b :: rest) (some (0, a, m))
      = (utf8DecodeLoop rest none).map (fun l => (a * 64 + (b - 0x80)) :: l) := by
  simp only [utf8DecodeLoop]
  rw [if_pos ⟨h1, h2⟩]
  rw [if_pos trivial]
  rw [if_neg h3]

theorem utf8DecodeLoop_encodeCp {n : Nat} (hval : Nat.isValidChar n) (bs : List Nat) :
    utf8DecodeLoop (utf8EncodeCp n ++ bs) none
      = (utf8DecodeLoop bs none).map (fun l => n :: l) := by
  have hrange : n < 0x110000 := by
    rcases hval with h | h
    · omega
    · omega
  have hsur : n < 0xD800 ∨ 0xE000 ≤ n := by
    rcases hval with h | h
    · exact Or.inl h
    · exact Or.inr (by omega)
  unfold utf8EncodeCp
  by_cases h1 : n < 0x80
  · rw [if_pos h1, List.singleton_append,
      utf8DecodeLoop_lead_ascii (show utf8Lead n = .ascii n from by
        unfold utf8Lead; rw [if_pos h1]) bs]
  · rw [if_neg h1]
    by_cases h2 : n < 0x800
    · rw [if_pos h2]
      simp only [List.cons_append, List.nil_append]
      rw [utf8DecodeLoop_lead_multi (show utf8Lead (0xC0 + n / 64) = .multi 0 (n / 64) 0x80 from by
        unfold utf8Lead
        rw [if_neg (by omega), if_neg (by omega), if_pos (by omega)]
        rw [show 0xC0 + n / 64 - 0xC0 = n / 64 from by omega]) _]
      rw [utf8DecodeLoop_final (0x80 + n % 64) (n / 64) 0x80 (by omega) (by omega) (by omega) bs]
      rw [show n / 64 * 64 + (0x80 + n % 64 - 0x80) = n from by omega]
    · rw [if_neg h2]
      by_cases h3 : n < 0x10000
      · rw [if_pos h3]
        simp only [List.cons_append, List.nil_append]
        rw [utf8DecodeLoop_lead_multi
          (show utf8Lead (0xE0 + n / 4096) = .multi 1 (n / 4096) 0x800 from by
            unfold utf8Lead
            rw [if_neg (by omega), if_neg (by omega), if_neg (by omega), if_pos (by omega)]
            rw [show 0xE0 + n / 4096 - 0xE0 = n / 4096 from by omega]) _]
        rw [utf8DecodeLoop_cont (0x80 + n / 64 % 64) 1 (n / 4096) 0x800
          (by omega) (by omega) (by omega) _]
        rw [show (1 : Nat) - 1 = 0 from rfl]
        rw [utf8DecodeLoop_final (0x80 + n % 64) (n / 4096 * 64 + (0x80 + n / 64 % 64 - 0x80))
          0x800 (by omega) (by omega) (by omega) bs]
        rw [show (n / 4096 * 64 + (0x80 + n / 64 % 64 - 0x80)) * 64 + (0x80 + n % 64 - 0x80) = n
          from by omega]
      · rw [if_neg h3]
        simp only [List.cons_append, List.nil_append]
        rw [utf8DecodeLoop_lead_multi
          (show utf8Lead (0xF0 + n / 262144) = .multi 2 (n / 262144) 0x10000 from by
            unfold utf8Lead
            rw [if_neg (by omega), if_neg (by omega), if_neg (by omega), if_neg (by omega),
              if_pos (by omega)]
            rw [show 0xF0 + n / 262144 - 0xF0 = n / 262144 from by omega]) _]
        rw [utf8DecodeLoop_cont (0x80 + n / 4096 % 64) 2 (n / 262144) 0x10000
          (by omega) (by omega) (by omega) _]
        rw [show (2 : Nat) - 1 = 1 from rfl]
        rw [utf8DecodeLoop_cont (0x80 + n / 64 % 64) 1
          (n / 262144 * 64 + (0x80 + n / 4096 % 64 - 0x80)) 0x10000
          (by omega) (by omega) (by omega) _]
        rw [show (1 : Nat) - 1 = 0 from rfl]
        rw [utf8DecodeLoop_final (0x80 + n % 64)
          ((n / 262144 * 64 + (0x80 + n / 4096 % 64 - 0x80)) * 64 + (0x80 + n / 64 % 64 - 0x80))
          0x10000 (by omega) (by omega) (by omega) bs]
        rw [show ((n / 262144 * 64 + (0x80 + n / 4096 % 64 - 0x80)) * 64
            + (0x80 + n / 64 % 64 - 0x80)) * 64 + (0x80 + n % 64 - 0x80) = n from by omega]

theorem utf8DecodeCps_encode (cs : List Char) :
    utf8DecodeCps (cs.flatMap (fun c => utf8EncodeCp c.toNat)) = some (cs.map Char.toNat) := by
  induction cs with
  | nil => rfl
  | cons c rest ih =>
    unfold utf8DecodeCps at ih ⊢
    rw [List.flatMap_cons, utf8DecodeLoop_encodeCp (char_isValidChar c), ih]
    rfl

theorem utf8Decode_encode (s : String) : utf8Decode (utf8Encode s) = some s := by
  unfold utf8Decode utf8Encode
  rw [utf8DecodeCps_encode]
  have hmap : (s.data.map Char.toNat).map Char.ofNat = s.data := by
    simp [List.map_map, Function.comp_def, Char.ofNat_toNat]
  show some (String.mk ((s.data.map Char.toNat).map Char.ofNat)) = some s
  rw [hmap, mk_data_eq]

theorem b64props : ∀ n, n < 64 →
    b64Val (b64Char n) = some n ∧ ¬b64Char n = '=' ∧ pyWs (b64Char n) = false := by decide

theorem b64Val_ne_pad {c : Char} {v : Nat} (h : b64Val c = some v) : ¬c = '=' := by
  intro hc
  rw [hc, show b64Val '=' = none from by decide] at h
  exact Option.noConfusion h

theorem a2bBase64_step0 {c : Char} {v : Nat} (h : b64Val c = some v) (rest : List Char)
    (lc pads : Nat) : a2bBase64 (c :: rest) 0 lc pads = a2bBase64 rest 1 v 0 := by
  simp only [a2bBase64]
  rw [if_neg (b64Val_ne_pad h), h]
  rfl

theorem a2bBase64_step1 {c : Char} {v : Nat} (h : b64Val c = some v) (rest : List Char)
    (lc pads : Nat) : a2bBase64 (c :: rest) 1 lc pads
      = (a2bBase64 rest 2 (v % 16) 0).map (fun l => (lc * 4 + v / 16) :: l) := by
  simp only [a2bBase64]
  rw [if_neg (b64Val_ne_pad h), h]
  rfl

theorem a2bBase64_step2 {c : Char} {v : Nat} (h : b64Val c = some v) (rest : List Char)
    (lc pads : Nat) : a2bBase64 (c :: rest) 2 lc pads
      = (a2bBase64 rest 3 (v % 4) 0).map (fun l => (lc * 16 + v / 4) :: l) := by
  simp only [a2bBase64]
  rw [if_neg (b64Val_ne_pad h), h]
  rfl

theorem a2bBase64_step3 {c : Char} {v : Nat} (h : b64Val c = some v) (rest : List Char)
    (lc pads : Nat) : a2bBase64 (c :: rest) 3 lc pads
      = (a2bBase64 rest 0 0 0).map (fun l => (lc * 64 + v) :: l) := by
  simp only [a2bBase64]
  rw [if_neg (b64Val_ne_pad h), h]
  rfl

theorem a2bBase64_pad_grow (rest : List Char) (qp lc pads : Nat) (h2 : 2 ≤ qp)
    (h4 : ¬4 ≤ qp + pads + 1) :
    a2bBase64 ('=' :: rest) qp lc pads = a2bBase64 rest qp lc (pads + 1) := by
  simp only [a2bBase64]
  rw [if_pos trivial, if_pos h2, if_neg h4]

theorem a2bBase64_pad_done (rest : List Char) (qp lc pads : Nat) (h2 : 2 ≤ qp)
    (h4 : 4 ≤ qp + pads + 1) :
    a2bBase64 ('=' :: rest) qp lc pads = some [] := by
  simp only [a2bBase64]
  rw [if_pos trivial, if_pos h2, if_pos h4]

theorem a2bBase64_encode : ∀ (bs : List Nat), (∀ b ∈ bs, b < 256) →
    a2bBase64 (b64encodeBytes bs) 0 0 0 = some bs
  | [], _ => rfl
  | [a], h => by
    have ha : a < 256 := h a (by simp)
    show a2bBase64 [b64Char (a / 4), b64Char (a % 4 * 16), '=', '='] 0 0 0 = some [a]
    rw [a2bBase64_step0 ((b64props (a / 4) (by omega)).1) _ 0 0,
      a2bBase64_step1 ((b64props (a % 4 * 16) (by omega)).1) _ (a / 4) 0,
      a2bBase64_pad_grow _ 2 _ 0 (by omega) (by omega),
      a2bBase64_pad_done _ 2 _ 1 (by omega) (by omega)]
    simp only [Option.map_some']
    rw [show a / 4 * 4 + a % 4 * 16 / 16 = a from by omega]
  | [a, b], h => by
    have ha : a < 256 := h a (by simp)
    have hb : b < 256 := h b (by simp)
    show a2bBase64 [b64Char (a / 4), b64Char (a % 4 * 16 + b / 16),
      b64Char (b % 16 * 4), '='] 0 0 0 = some [a, b]
    rw [a2bBase64_step0 ((b64props (a / 4) (by omega)).1) _ 0 0,
      a2bBase64_step1 ((b64props (a % 4 * 16 + b / 16) (by omega)).1) _ (a / 4) 0,
      a2bBase64_step2 ((b64props (b % 16 * 4) (by omega)).1) _ _ 0,
      a2bBase64_pad_done _ 3 _ 0 (by omega) (by omega)]
    simp only [Option.map_some']
    rw [show a / 4 * 4 + (a % 4 * 16 + b / 16) / 16 = a from by omega,
      show (a % 4 * 16 + b / 16) % 16 * 16 + b % 16 * 4 / 4 = b from by omega]
  | a :: b :: c :: rest, h => by
    have ha : a < 256 := h a (by simp)
    have hb : b < 256 := h b (by simp)
    have hc : c < 256 := h c (by simp)
    have ih := a2bBase64_encode rest (fun x hx => h x (by simp [hx]))
    show a2bBase64 (b64Char (a / 4) :: b64Char (a % 4 * 16 + b / 16)
      :: b64Char (b % 16 * 4 + c / 64) :: b64Char (c % 64) :: b64encodeBytes rest) 0 0 0
      = some (a :: b :: c :: rest)
    rw [a2bBase64_step0 ((b64props (a / 4) (by omega)).1) _ 0 0,
      a2bBase64_step1 ((b64props (a % 4 * 16 + b / 16) (by omega)).1) _ (a / 4) 0,
      a2bBase64_step2 ((b64props (b % 16 * 4 + c / 64) (by omega)).1) _ _ 0,
      a2bBase64_step3 ((b64props (c % 64) (by omega)).1) _ _ 0,
      ih]
    simp only [Option.map_some']
    rw [show a / 4 * 4 + (a % 4 * 16 + b / 16) / 16 = a from by omega,
      show (a % 4 * 16 + b / 16) % 16 * 16 + (b % 16 * 4 + c / 64) / 4 = b from by omega,
      show (b % 16 * 4 + c / 64) % 4 * 64 + c % 64 = c from by omega]

theorem mem_b64encodeBytes : ∀ (bs : List Nat), (∀ b ∈ bs, b < 256) →
    ∀ c ∈ b64encodeBytes bs, (∃ k, k < 64 ∧ c = b64Char k) ∨ c = '='
  | [], _ => by intro c hc; cases hc
  | [a], h => by
    have ha : a < 256 := h a (by simp)
    intro c hc
    simp only [b64encodeBytes, List.mem_cons, List.not_mem_nil, or_false] at hc
    rcases hc with rfl | rfl | rfl | rfl
    · exact Or.inl ⟨a / 4, by omega, rfl⟩
    · exact Or.inl ⟨a % 4 * 16, by omega, rfl⟩
    · exact Or.inr rfl
    · exact Or.inr rfl
  | [a, b], h => by
    have ha : a < 256 := h a (by simp)
    have hb : b < 256 := h b (by simp)
    intro c hc
    simp only [b64encodeBytes, List.mem_cons, List.not_mem_nil, or_false] at hc
    rcases hc with rfl | rfl | rfl | rfl
    · exact Or.inl ⟨a / 4, by omega, rfl⟩
    · exact Or.inl ⟨a % 4 * 16 + b / 16, by omega, rfl⟩
    · exact Or.inl ⟨b % 16 * 4, by omega, rfl⟩
    · exact Or.inr rfl
  | a :: b :: c :: rest, h => by
    have ha : a < 256 := h a (by simp)
    have hb : b < 256 := h b (by simp)
    have hc : c < 256 := h c (by simp)
    have ih := mem_b64encodeBytes rest (fun x hx => h x (by simp [hx]))
    intro e he
    rw [show b64encodeBytes (a :: b :: c :: rest)
      = b64Char (a / 4) :: b64Char (a % 4 * 16 + b / 16) :: b64Char (b % 16 * 4 + c / 64)
        :: b64Char (c % 64) :: b64encodeBytes rest from rfl] at he
    simp only [List.mem_cons] at he
    rcases he with rfl | rfl | rfl | rfl | he
    · exact Or.inl ⟨a / 4, by omega, rfl⟩
    · exact Or.inl ⟨a % 4 * 16 + b / 16, by omega, rfl⟩
    · exact Or.inl ⟨b % 16 * 4 + c / 64, by omega, rfl⟩
    · exact Or.inl ⟨c % 64, by omega, rfl⟩
    · exact ih e he

theorem utf8Encode_lt_256 (s : String) : ∀ b ∈ utf8Encode s, b < 256 := by
  intro b hb
  simp only [utf8Encode, List.mem_flatMap] at hb
  obtain ⟨c, _, hbc⟩ := hb
  exact utf8EncodeCp_lt_256 (char_toNat_lt c) hbc

theorem b64CharAscii : ∀ n, n < 64 → (b64Char n).toNat < 128 := by decide

theorem b64decodeStr_encode (bs : List Nat) (h : ∀ b ∈ bs, b < 256) :
    b64decodeStr (String.mk (b64encodeBytes bs)) = some bs := by
  have hasc : (b64encodeBytes bs).all (fun c => c.toNat < 128) = true := by
    rw [List.all_eq_true]
    intro c hc
    rcases mem_b64encodeBytes bs h c hc with ⟨k, hk, rfl⟩ | rfl
    · exact decide_eq_true (b64CharAscii k hk)
    · decide
  unfold b64decodeStr
  rw [data_mk, if_pos hasc]
  exact a2bBase64_encode bs h

theorem b64encode_no_ws (bs : List Nat) (h : ∀ b ∈ bs, b < 256) :
    ∀ c ∈ b64encodeBytes bs, pyWs c = false := by
  intro c hc
  rcases mem_b64encodeBytes bs h c hc with ⟨k, hk, rfl⟩ | rfl
  · exact (b64props k hk).2.2
  · decide

theorem pyStripL_no_ws {l : List Char} (h : ∀ c ∈ l, pyWs c = false) : pyStripL l = l := by
  have h1 : ∀ (m : List Char), (∀ c ∈ m, pyWs c = false) → m.dropWhile pyWs = m := by
    intro m hm
    cases m with
    | nil => rfl
    | cons c r => rw [List.dropWhile_cons, hm c (by simp)]; rfl
  unfold pyStripL
  rw [h1 _ h, h1 _ (fun c hc => h c (List.mem_reverse.mp hc)), List.reverse_reverse]

theorem pyStrip_of_no_ws {s : String} (h : ∀ c ∈ s.data, pyWs c = false) : pyStrip s = s := by
  unfold pyStrip
  rw [pyStripL_no_ws h, mk_data_eq]

theorem filterMapLine_cons (l : List Char) (h : ¬l = []) (rest : List (List Char)) :
    (l :: rest).filterMap (fun m => if m = [] then none else some (String.mk m))
      = String.mk l :: rest.filterMap (fun m => if m = [] then none else some (String.mk m)) := by
  rw [List.filterMap_cons, if_neg h]

theorem splitConfigLines_joinLines : ∀ (L : List String),
    (∀ s ∈ L, ¬s = "" ∧ '\n' ∉ s.data ∧ pyStrip s = s) →
    splitConfigLines (String.mk (joinLines L)) = L
  | [], _ => rfl
  | [s], h => by
    obtain ⟨hne, hnl, hst⟩ := h s (by simp)
    have hstl : pyStripL s.data = s.data := by
      have hd := congrArg String.data hst
      rw [pyStrip, data_mk] at hd
      exact hd
    have hdne : ¬s.data = [] := fun hd => hne (str_eq_empty_iff.mpr hd)
    unfold splitConfigLines
    rw [data_mk, show joinLines [s] = s.data from rfl, splitAllChar_of_not_mem hnl,
      List.map_cons, List.map_nil, hstl, filterMapLine_cons s.data hdne, List.filterMap_nil,
      mk_data_eq]
  | s :: t :: rest, h => by
    obtain ⟨hne, hnl, hst⟩ := h s (by simp)
    have hstl : pyStripL s.data = s.data := by
      have hd := congrArg String.data hst
      rw [pyStrip, data_mk] at hd
      exact hd
    have hdne : ¬s.data = [] := fun hd => hne (str_eq_empty_iff.mpr hd)
    have ih := splitConfigLines_joinLines (t :: rest) (fun u hu => h u (by simp [hu]))
    unfold splitConfigLines at ih ⊢
    rw [data_mk] at ih ⊢
    rw [show joinLines (s :: t :: rest) = s.data ++ '\n' :: joinLines (t :: rest) from rfl,
      splitAllChar_append hnl, List.map_cons, hstl, filterMapLine_cons s.data hdne, ih,
      mk_data_eq]

/-- C9: when the envelope's base64 or UTF-8 decoding fails, `get_base_configs`
returns no configurations and `multi_subscription` aborts with the single
envelope-level error message, producing no partial output. -/
theorem C9_envelope_failure (sni_list : List String) (response_text : String)
    (h : envelopeDecodedText (pyStrip response_text) = none) :
    get_base_configs response_text = [] ∧
    multi_subscription sni_list response_text
      = "Error: No valid configurations found in base subscription" := by
  have hg : get_base_configs response_text = [] := by
    unfold get_base_configs
    rw [h]
  refine ⟨hg, ?_⟩
  unfold multi_subscription
  rw [hg]
  rfl

theorem C9_witness :
    envelopeDecodedText (pyStrip "/w==") = none ∧
    (get_base_configs "/w==" = [] ∧
      multi_subscription ["example.com"] "/w=="
        = "Error: No valid configurations found in base subscription") :=
  ⟨by decide, C9_envelope_failure ["example.com"] "/w==" (by decide)⟩

/-- C7 (amended): the envelope round trip holds for lists of non-empty,
newline-free strings that are additionally `strip`-invariant; the per-line
`.strip()` in the decoder makes the stronger original claim false. -/
theorem C7_envelope_roundtrip (L : List String)
    (h : ∀ s ∈ L, ¬s = "" ∧ '\n' ∉ s.data ∧ pyStrip s = s) :
    decodeEnvelope (encodeEnvelope L) = some L := by
  unfold decodeEnvelope encodeEnvelope envelopeDecodedText
  rw [pyStrip_of_no_ws (by
    intro c hc
    rw [data_mk] at hc
    exact b64encode_no_ws _ (utf8Encode_lt_256 _) c hc)]
  rw [b64decodeStr_encode (utf8Encode (String.mk (joinLines L))) (utf8Encode_lt_256 _)]
  show (utf8Decode (utf8Encode (String.mk (joinLines L)))).map splitConfigLines = some L
  rw [utf8Decode_encode]
  show some (splitConfigLines (String.mk (joinLines L))) = some L
  rw [splitConfigLines_joinLines L h]

theorem C7_counterexample :
    (" a" : String) ≠ "" ∧ '\n' ∉ (" a" : String).data ∧
    decodeEnvelope (encodeEnvelope [" a"]) = some ["a"] ∧
    decodeEnvelope (encodeEnvelope [" a"]) ≠ some ([" a"] : List String) :=
  ⟨by decide, by decide, by decide, by decide⟩

theorem C7_witness :
    (∀ s ∈ (["host1", "host2"] : List String), ¬s = "" ∧ '\n' ∉ s.data ∧ pyStrip s = s) ∧
    decodeEnvelope (encodeEnvelope ["host1", "host2"]) = some ["host1", "host2"] :=
  ⟨by decide, C7_envelope_roundtrip ["host1", "host2"] (by decide)⟩

end V2RaySub
